import Mathlib

/-!
# DPoS epoch context (consensus/dpos/epoch_context.go)

A shallow embedding of `EpochContext` and of the operations it runs at epoch
boundaries: `countVotes`, `kickoutValidator`, `lookupValidator`, `tryElect`
and the ordering `sortableAddresses.Less`.

Conventions of the embedding.

* A Go `[]byte` is a list of `Fin 256`; a Go `string` is the list of its bytes
  (Go compares strings bytewise).
* `int64` values are integers; `/` and `%` of Go are `Int.tdiv` and `Int.tmod`
  (truncation towards zero), and `wrap64` is applied where an `int64`
  operation of the source can overflow.
* `*big.Int` is `Int`.
* A trie is the list of its `(key, value)` entries in iteration order.
  Iterator errors (`iter.Err`) are never inspected by the source and the
  tries of the model always iterate to the end.
* In-place mutation is explicit state passing: an operation that returns
  `error` in Go returns the state it leaves behind together with the error.
-/

namespace Dpos

/-! ## Bytes, strings and machine integers -/

/-- One byte. -/
abbrev Byte := Fin 256

/-- Go `[]byte`. -/
abbrev Bytes := List Byte

/-- Go `string`, as the sequence of its bytes. -/
abbrev GoString := List Nat

/-- Go `s < t` on strings: bytewise lexicographic comparison. -/
def strLess : GoString → GoString → Bool
  | [], [] => false
  | [], _ :: _ => true
  | _ :: _, [] => false
  | a :: s, b :: t => if a < b then true else if b < a then false else strLess s t

/-- Conversion `int64(u)` of an unsigned 64-bit value: two's complement. -/
def toInt64 (u : Nat) : Int :=
  if u % 2 ^ 64 < 2 ^ 63 then ((u % 2 ^ 64 : Nat) : Int) else ((u % 2 ^ 64 : Nat) : Int) - 2 ^ 64

/-- Conversion `uint64(x)` of a signed value. -/
def toUint64 (x : Int) : Nat := (x % 2 ^ 64).toNat

/-- Result of an `int64` operation whose mathematical value is `x`. -/
def wrap64 (x : Int) : Int := toInt64 (toUint64 x)

/-- Go `binary.BigEndian.PutUint64(key, v)` on a fresh 8-byte slice. -/
def PutUint64 (v : Nat) : Bytes :=
  (List.range 8).map fun k => ⟨v / 256 ^ (7 - k) % 256, Nat.mod_lt _ (by decide)⟩

/-- Go `binary.LittleEndian.Uint32(b)`: the first four bytes, least significant first.
The source applies it to a Keccak-512 digest, which has 64 bytes. -/
def LittleEndianUint32 (b : Bytes) : Nat :=
  ((b.getD 0 0).val + (b.getD 1 0).val * 256 + (b.getD 2 0).val * 256 ^ 2
    + (b.getD 3 0).val * 256 ^ 3)

/-! ## Addresses -/

/-- Length of an address in bytes (`common.AddressLength`). -/
def AddressLength : Nat := 20

/-- Go `common.Address`, a `[20]byte`. -/
structure Address where
  bytes : Bytes
  len : bytes.length = AddressLength
deriving DecidableEq

/-- Go `common.BytesToAddress`: keeps the last 20 bytes of a longer slice and
left-pads a shorter one with zeros. -/
def BytesToAddress (b : Bytes) : Address where
  bytes := List.replicate (AddressLength - b.length) 0 ++ b.drop (b.length - AddressLength)
  len := by
    simp only [List.length_append, List.length_replicate, List.length_drop]
    omega

/-- Go `Address.Bytes`. -/
def Address.Bytes (a : Address) : Bytes := a.bytes

/-- ASCII code of a hexadecimal digit, lower case. -/
def hexDigit (n : Nat) : Nat := if n < 10 then 48 + n else 87 + n

/-- Modelled from the spec: the textual form of an address, of which
`common.Address.String` is the source (not part of this file set). The model is
`0x` followed by two lower-case hexadecimal digits per byte. The ordering is
parametric in the textual form; this instance makes the definitions executable. -/
def Address.Hex (a : Address) : GoString :=
  48 :: 120 :: a.bytes.flatMap fun b => [hexDigit (b.val / 16), hexDigit (b.val % 16)]

/-! ## Ordering (`sortableAddress`, `sortableAddresses.Less`) -/

/-- Go `sortableAddress`. -/
structure sortableAddress where
  address : Address
  weight : Int
deriving DecidableEq

/-- Go `sortableAddresses`. -/
abbrev sortableAddresses := List sortableAddress

/-- Go `sortableAddresses.Less(i, j)`, with `pi = p[i]` and `pj = p[j]`; `str` is
`common.Address.String`. -/
def sortableAddresses.Less (str : Address → GoString) (pi pj : sortableAddress) : Bool :=
  if pi.weight < pj.weight then false
  else if pi.weight > pj.weight then true
  else strLess (str pi.address) (str pj.address)

/-- Go `sort.Reverse(p).Less(i, j)`, which is `p.Less(j, i)`. -/
def Reverse (less : sortableAddress → sortableAddress → Bool) (pi pj : sortableAddress) : Bool :=
  less pj pi

/-- A comparison is a strict weak order: irreflexive, transitive, and
incomparability is transitive. -/
def StrictWeakOrder {α : Type} (less : α → α → Bool) : Prop :=
  (∀ a, less a a = false) ∧ (∀ a b c, less a b = true → less b c = true → less a c = true) ∧
    (∀ a b c, less a b = false → less b c = false → less a c = false)

/-- Modelled from the spec: Go `sort.Sort` (standard library, not part of this file
set). It rearranges its argument, is not stable, and for a strict weak order `less`
leaves no later element that is `less` than an earlier one. -/
structure SortImpl where
  sort : (sortableAddress → sortableAddress → Bool) → sortableAddresses → sortableAddresses
  perm : ∀ less p, (sort less p).Perm p
  sorted : ∀ less, StrictWeakOrder less → ∀ p, (sort less p).Pairwise fun a b => less b a = false

/-! ## State -/

/-- A trie, as the list of its entries in iteration order. -/
abbrev Trie (V : Type) := List (Bytes × V)

/-- Go `trie.NewIterator(t.NodeIterator(nil))`: every entry. -/
def Trie.NodeIterator {V : Type} (t : Trie V) : List (Bytes × V) := t

/-- Go `trie.NewIterator(t.PrefixIterator(p))`: the entries whose key begins with `p`. -/
def Trie.PrefixIterator {V : Type} (t : Trie V) (p : Bytes) : List (Bytes × V) :=
  t.filter fun e => p.isPrefixOf e.1

/-- Go `t.Get(key)`: the value stored under `key`, `none` for Go `nil`. -/
def Trie.Get {V : Type} (t : Trie V) (key : Bytes) : Option V :=
  (t.find? fun e => e.1 == key).map Prod.snd

/-- Errors returned by the epoch context, and the run-time panics of an index out
of range and of `Int31n` on an argument that is not positive. -/
inductive Err where
  | ErrInvalidMintBlockTime
  | failedToLookupValidator
  | failedToDecodeValidators
  | failedToGetValidator
  | noValidatorCouldBeKickout
  | noCandidates
  | tooFewCandidates
  | storeError
  | panicIndexOutOfRange
  | panicInvalidArgumentToInt31n
deriving DecidableEq, Repr

/-- Go `types.DposContext`. `epochTrie` holds the validator slate stored under the
key `validator`; `none` stands for a slate that does not decode. The values of
`mintCntTrie` are the stored 8-byte big-endian counters, as unsigned numbers. -/
structure types.DposContext where
  epochTrie : Option (List Address)
  candidateTrie : Trie Bytes
  delegateTrie : Trie Bytes
  voteTrie : Trie Bytes
  mintCntTrie : Trie Nat
deriving DecidableEq

/-- Go `DposContext.GetValidators`. -/
def types.DposContext.GetValidators (dc : types.DposContext) : Except Err (List Address) :=
  match dc.epochTrie with
  | some validators => .ok validators
  | none => .error .failedToDecodeValidators

/-- Go `SetEpoch(epochTrie)` with a fresh trie followed by `SetValidators(validators)`. -/
def types.DposContext.SetEpochAndValidators (dc : types.DposContext)
    (validators : List Address) : types.DposContext :=
  { dc with epochTrie := some validators }

/-- Go `types.Header`: the fields the epoch context reads. `Time` is `Time.Int64()`. -/
structure types.Header where
  Time : Int
  Hash : Bytes

/-- Go `EpochContext`; `statedb` is `statedb.GetBalance`. -/
structure EpochContext where
  TimeStamp : Int
  DposContext : types.DposContext
  statedb : Address → Int

/-- Protocol constants of package `dpos` (declared outside this file set). -/
structure Config where
  epochInterval : Int
  blockInterval : Int
  maxValidatorSize : Nat
  safeSize : Int
  timeOfFirstBlock : Int

/-- Go `map[common.Address]*big.Int`, as the list of its entries, one per key. -/
abbrev VoteMap := List (Address × Int)

/-- Go `score, ok := votes[k]`. -/
def VoteMap.get (votes : VoteMap) (k : Address) : Option Int :=
  (votes.find? fun e => e.1 = k).map Prod.snd

/-- Go `votes[k] = v`: overwrite the entry of `k`, or add one. -/
def VoteMap.set : VoteMap → Address → Int → VoteMap
  | [], k, v => [(k, v)]
  | e :: rest, k, v => if e.1 = k then (k, v) :: rest else e :: VoteMap.set rest k v

/-- Modelled from the spec: Go `math/rand` (standard library, not part of this file
set): a deterministic generator made from a 64-bit seed, whose `Int31n(n)` returns a
number in `[0, n)` for `n > 0` and advances the generator. -/
structure RandImpl where
  Rand : Type
  NewSource : Int → Rand
  Int31n : Rand → Nat → Nat × Rand
  Int31n_lt : ∀ r n, 0 < n → (Int31n r n).1 < n

/-- The code the epoch context calls and this file set does not contain:
`common.Address.String`, `sort.Sort`, `math/rand`, `crypto.Keccak512`,
`DposContext.KickoutCandidate` (which returns the context it leaves and its error),
and the order in which `range` enumerates the vote map in the election round of
epoch index `i` (Go leaves it unspecified; it may differ from run to run). -/
structure Lib where
  str : Address → GoString
  sorter : SortImpl
  rand : RandImpl
  Keccak512 : Bytes → Bytes
  KickoutCandidate : types.DposContext → Address → types.DposContext × Option Err
  rangeVotes : Int → VoteMap → List (Address × Int)
  rangeVotes_perm : ∀ i votes, (rangeVotes i votes).Perm votes

/-! ## countVotes -/

/-- The inner loop of `countVotes`, `for existDelegator`, over the entries the
delegate iterator yields. -/
def countDelegators (statedb : Address → Int) (candidateAddr : Address) :
    List (Bytes × Bytes) → VoteMap → VoteMap
  | [], votes => votes
  | e :: rest, votes =>
    let delegator := e.2
    let score := (votes.get candidateAddr).getD 0
    let delegatorAddr := BytesToAddress delegator
    let weight := statedb delegatorAddr
    countDelegators statedb candidateAddr rest (votes.set candidateAddr (score + weight))

/-- The outer loop of `countVotes`, `for existCandidate`, over the entries the
candidate iterator yields. -/
def countCandidates (delegateTrie : Trie Bytes) (statedb : Address → Int) :
    List (Bytes × Bytes) → VoteMap → VoteMap
  | [], votes => votes
  | e :: rest, votes =>
    let candidate := e.2
    let candidateAddr := BytesToAddress candidate
    match delegateTrie.PrefixIterator candidate with
    | [] => countCandidates delegateTrie statedb rest (votes.set candidateAddr 0)
    | d :: ds =>
      countCandidates delegateTrie statedb rest (countDelegators statedb candidateAddr (d :: ds) votes)

/-- Go `EpochContext.countVotes`: the map and the error it returns. -/
def EpochContext.countVotes (ec : EpochContext) : VoteMap × Option Err :=
  let delegateTrie := ec.DposContext.delegateTrie
  let candidateTrie := ec.DposContext.candidateTrie
  match candidateTrie.NodeIterator with
  | [] => ([], some .noCandidates)
  | c :: cs => (countCandidates delegateTrie ec.statedb (c :: cs) [], none)

/-! ## kickoutValidator -/

/-- The mint count `cnt` that `kickoutValidator` reads for `validator` in `epoch`. -/
def mintCnt (ec : EpochContext) (epoch : Int) (validator : Address) : Int :=
  let key := PutUint64 (toUint64 epoch) ++ validator.Bytes
  match ec.DposContext.mintCntTrie.Get key with
  | some cntBytes => toInt64 cntBytes
  | none => 0

/-- The `epochDuration` of `kickoutValidator`. -/
def epochDuration (cfg : Config) (ec : EpochContext) : Int :=
  if wrap64 (ec.TimeStamp - cfg.timeOfFirstBlock) < cfg.epochInterval then
    wrap64 (ec.TimeStamp - cfg.timeOfFirstBlock)
  else cfg.epochInterval

/-- The threshold `epochDuration/blockInterval/maxValidatorSize/2`. -/
def kickoutThreshold (cfg : Config) (ec : EpochContext) : Int :=
  (((epochDuration cfg ec).tdiv cfg.blockInterval).tdiv cfg.maxValidatorSize).tdiv 2

/-- The first loop of `kickoutValidator`: the validators to kick out, in slate order. -/
def needKickoutValidators (cfg : Config) (ec : EpochContext) (epoch : Int) :
    List Address → sortableAddresses
  | [] => []
  | validator :: rest =>
    let cnt := mintCnt ec epoch validator
    if cnt < kickoutThreshold cfg ec then
      ⟨validator, cnt⟩ :: needKickoutValidators cfg ec epoch rest
    else needKickoutValidators cfg ec epoch rest

/-- The counting loop of `kickoutValidator`: one per entry, stopping at `limit`. -/
def countUpTo (limit : Int) : List (Bytes × Bytes) → Int → Int
  | [], candidateCount => candidateCount
  | _ :: rest, candidateCount =>
    if candidateCount + 1 ≥ limit then candidateCount + 1
    else countUpTo limit rest (candidateCount + 1)

/-- What the removal loop of `kickoutValidator` leaves: the context, the addresses
passed to `KickoutCandidate` in call order, and the error. -/
structure KickoutResult where
  dc : types.DposContext
  kicked : List Address
  err : Option Err

/-- The removal loop of `kickoutValidator`. -/
def kickoutLoop (cfg : Config) (lib : Lib) :
    sortableAddresses → Int → types.DposContext → List Address → KickoutResult
  | [], _, dc, kicked => ⟨dc, kicked, none⟩
  | validator :: rest, candidateCount, dc, kicked =>
    if candidateCount ≤ cfg.safeSize then ⟨dc, kicked, none⟩
    else
      match lib.KickoutCandidate dc validator.address with
      | (dc1, some err) => ⟨dc1, kicked ++ [validator.address], some err⟩
      | (dc1, none) =>
        kickoutLoop cfg lib rest (candidateCount - 1) dc1 (kicked ++ [validator.address])

/-- Go `EpochContext.kickoutValidator`, with the log of the kicked candidates. -/
def kickoutValidatorLog (cfg : Config) (lib : Lib) (ec : EpochContext) (epoch : Int) :
    KickoutResult :=
  match ec.DposContext.GetValidators with
  | .error _ => ⟨ec.DposContext, [], some .failedToGetValidator⟩
  | .ok validators =>
    if validators.length = 0 then ⟨ec.DposContext, [], some .noValidatorCouldBeKickout⟩
    else
      let needKickout := needKickoutValidators cfg ec epoch validators
      let needKickoutValidatorCnt := needKickout.length
      if needKickoutValidatorCnt ≤ 0 then ⟨ec.DposContext, [], none⟩
      else
        let sorted := lib.sorter.sort (Reverse (sortableAddresses.Less lib.str)) needKickout
        let candidateCount :=
          countUpTo (needKickoutValidatorCnt + cfg.safeSize)
            ec.DposContext.candidateTrie.NodeIterator 0
        kickoutLoop cfg lib sorted candidateCount ec.DposContext []

/-- Go `EpochContext.kickoutValidator`: the epoch context it leaves and its error. -/
def EpochContext.kickoutValidator (cfg : Config) (lib : Lib) (ec : EpochContext) (epoch : Int) :
    EpochContext × Option Err :=
  let r := kickoutValidatorLog cfg lib ec epoch
  (⟨ec.TimeStamp, r.dc, ec.statedb⟩, r.err)

/-! ## lookupValidator -/

/-- Go `validators[offset]`: a panic when the index is out of range. -/
def indexAddress (validators : List Address) (offset : Int) : Except Err Address :=
  if offset < 0 then .error .panicIndexOutOfRange
  else
    match validators[offset.toNat]? with
    | some validator => .ok validator
    | none => .error .panicIndexOutOfRange

/-- Go `EpochContext.lookupValidator`. -/
def EpochContext.lookupValidator (cfg : Config) (ec : EpochContext) (now : Int) :
    Except Err Address :=
  let offset := now.tmod cfg.epochInterval
  if offset.tmod cfg.blockInterval ≠ 0 then .error .ErrInvalidMintBlockTime
  else
    let offset := offset.tdiv cfg.blockInterval
    match ec.DposContext.GetValidators with
    | .error err => .error err
    | .ok validators =>
      let validatorSize := validators.length
      if validatorSize = 0 then .error .failedToLookupValidator
      else
        let offset := offset.tmod (validatorSize : Int)
        indexAddress validators offset

/-! ## tryElect -/

/-- Conversion `int32(n)` of a non-negative `int`: two's complement on 32 bits. -/
def toInt32 (n : Nat) : Int :=
  if n % 2 ^ 32 < 2 ^ 31 then ((n % 2 ^ 32 : Nat) : Int) else ((n % 2 ^ 32 : Nat) : Int) - 2 ^ 32

/-- Go `p[i], p[j] = p[j], p[i]` (also `sortableAddresses.Swap`). Both indices are
in range wherever the source swaps; outside the range the list is returned as is. -/
def Swap {α : Type} (p : List α) (i j : Nat) : List α :=
  match p[i]?, p[j]? with
  | some a, some b => (p.set i b).set j a
  | _, _ => p

/-- The shuffle loop of `tryElect`, `for i := len(candidates) - 1; i > 0; i--`, entered
at index `i`. `Int31n` panics on an argument that is not positive. -/
def shuffle (rand : RandImpl) : Nat → rand.Rand → sortableAddresses → Except Err sortableAddresses
  | 0, _, candidates => .ok candidates
  | i + 1, r, candidates =>
    let n := toInt32 (i + 1 + 1)
    if n ≤ 0 then .error .panicInvalidArgumentToInt31n
    else
      let (j, r1) := rand.Int31n r n.toNat
      shuffle rand i r1 (Swap candidates (i + 1) j)

/-- The seed of the shuffle in the election round of epoch index `i`. -/
def shuffleSeed (lib : Lib) (parent : types.Header) (i : Int) : Int :=
  wrap64 ((LittleEndianUint32 (lib.Keccak512 parent.Hash) : Int) + i)

/-- What one round of the election loop leaves: the epoch context, the mint-count
iterator and the error. -/
structure RoundResult where
  ec : EpochContext
  iter : List (Bytes × Nat)
  err : Option Err

/-- The part of a round of `tryElect` after the kick-out: tally, rank, shuffle and
install, on the epoch context `ec` the kick-out left. -/
def electFromVotes (cfg : Config) (lib : Lib) (parent : types.Header) (i : Int)
    (ec : EpochContext) : EpochContext × Option Err :=
  match ec.countVotes with
  | (_, some err) => (ec, some err)
  | (votes, none) =>
    let candidates : sortableAddresses :=
      (lib.rangeVotes i votes).map fun e => ⟨e.1, e.2⟩
    if (candidates.length : Int) < cfg.safeSize then (ec, some .tooFewCandidates)
    else
      let candidates := lib.sorter.sort (sortableAddresses.Less lib.str) candidates
      let candidates :=
        if candidates.length > cfg.maxValidatorSize then candidates.take cfg.maxValidatorSize
        else candidates
      let seed := shuffleSeed lib parent i
      let r := lib.rand.NewSource seed
      match shuffle lib.rand (candidates.length - 1) r candidates with
      | .error err => (ec, some err)
      | .ok candidates =>
        let sortedValidators := candidates.map fun candidate => candidate.address
        (⟨ec.TimeStamp, ec.DposContext.SetEpochAndValidators sortedValidators, ec.statedb⟩, none)

/-- The gate of the kick-out in a round: `!prevEpochIsGenesis && iter.Next()`. The
iterator advances only when `Next` is called. -/
def kickoutGate (prevEpochIsGenesis : Bool) (iter : List (Bytes × Nat)) :
    Bool × List (Bytes × Nat) :=
  if prevEpochIsGenesis then (false, iter)
  else
    match iter with
    | [] => (false, [])
    | _ :: rest => (true, rest)

/-- One round of the loop of `tryElect`, for the epoch index `i`. -/
def electRound (cfg : Config) (lib : Lib) (parent : types.Header) (prevEpoch : Int)
    (prevEpochIsGenesis : Bool) (i : Int) (iter : List (Bytes × Nat)) (ec : EpochContext) :
    RoundResult :=
  let gate := kickoutGate prevEpochIsGenesis iter
  if gate.1 then
    match ec.kickoutValidator cfg lib prevEpoch with
    | (ec1, some err) => ⟨ec1, gate.2, some err⟩
    | (ec1, none) =>
      let r := electFromVotes cfg lib parent i ec1
      ⟨r.1, gate.2, r.2⟩
  else
    let r := electFromVotes cfg lib parent i ec
    ⟨r.1, gate.2, r.2⟩

/-- The loop of `tryElect`, `for i := prevEpoch; i < currentEpoch; i++`, with `n` rounds
left to run from index `i`. -/
def electLoop (cfg : Config) (lib : Lib) (parent : types.Header) (prevEpoch : Int)
    (prevEpochIsGenesis : Bool) :
    Nat → Int → List (Bytes × Nat) → EpochContext → EpochContext × Option Err
  | 0, _, _, ec => (ec, none)
  | n + 1, i, iter, ec =>
    match electRound cfg lib parent prevEpoch prevEpochIsGenesis i iter ec with
    | ⟨ec1, _, some err⟩ => (ec1, some err)
    | ⟨ec1, iter1, none⟩ =>
      electLoop cfg lib parent prevEpoch prevEpochIsGenesis n (i + 1) iter1 ec1

/-- Go `EpochContext.tryElect`: the epoch context it leaves and its error. The loop
runs `currentEpoch - prevEpoch` rounds when that is positive and none otherwise. -/
def EpochContext.tryElect (cfg : Config) (lib : Lib) (ec : EpochContext)
    (genesis parent : types.Header) : EpochContext × Option Err :=
  let genesisEpoch := genesis.Time.tdiv cfg.epochInterval
  let prevEpoch := parent.Time.tdiv cfg.epochInterval
  let currentEpoch := ec.TimeStamp.tdiv cfg.epochInterval
  let prevEpochIsGenesis := decide (prevEpoch = genesisEpoch)
  let prevEpoch :=
    if prevEpochIsGenesis = true ∧ prevEpoch < currentEpoch then currentEpoch - 1 else prevEpoch
  let prevEpochBytes := PutUint64 (toUint64 prevEpoch)
  let iter := ec.DposContext.mintCntTrie.PrefixIterator prevEpochBytes
  electLoop cfg lib parent prevEpoch prevEpochIsGenesis (currentEpoch - prevEpoch).toNat
    prevEpoch iter ec

/-! ## Executable instances of the code outside this file set -/

/-- An instance of `sort.Sort`: insertion sort, which is what the Go library runs on
short slices. -/
def insertionSortImpl : SortImpl where
  sort less p := p.insertionSort fun a b => less b a = false
  perm less p := List.perm_insertionSort _ p
  sorted less h p := by
    have htot : IsTotal sortableAddress fun a b => less b a = false := by
      refine ⟨fun a b => ?_⟩
      by_cases hba : less b a = false
      · exact Or.inl hba
      · right
        by_contra hab
        have h1 : less b a = true := by simpa using hba
        have h2 : less a b = true := by simpa using hab
        have := h.2.1 a b a h2 h1
        rw [h.1 a] at this
        exact Bool.noConfusion this
    have htr : IsTrans sortableAddress fun a b => less b a = false :=
      ⟨fun a b c hab hbc => h.2.2 c b a hbc hab⟩
    exact List.sorted_insertionSort _ p

/-- An instance of `math/rand`: a linear congruential generator. -/
def lcgRand : RandImpl where
  Rand := Nat
  NewSource seed := toUint64 seed
  Int31n r n := ((r / 65536) % n, (r * 6364136223846793005 + 1442695040888963407) % 2 ^ 64)
  Int31n_lt _ _ hn := Nat.mod_lt _ hn

/-- Modelled from the spec: `DposContext.KickoutCandidate` (declared outside this
file set), which removes the candidate from CandidateTrie (the entry under its key,
when there is one) and deletes its DelegateTrie entries. -/
def types.DposContext.KickoutCandidate (dc : types.DposContext) (candidateAddr : Address) :
    types.DposContext × Option Err :=
  let candidate := candidateAddr.Bytes
  ({ epochTrie := dc.epochTrie
     candidateTrie := dc.candidateTrie.eraseP fun e => e.1 == candidate
     delegateTrie := dc.delegateTrie.filter fun e => !candidate.isPrefixOf e.1
     voteTrie := dc.voteTrie
     mintCntTrie := dc.mintCntTrie }, none)

/-- An executable `Lib`: hexadecimal address text, insertion sort, the generator
`lcgRand`, a digest that repeats its input, the modelled `KickoutCandidate`, and
map enumeration in insertion order. -/
def stdLib : Lib where
  str := Address.Hex
  sorter := insertionSortImpl
  rand := lcgRand
  Keccak512 b := b ++ List.replicate (64 - b.length) 0
  KickoutCandidate := types.DposContext.KickoutCandidate
  rangeVotes _ votes := votes
  rangeVotes_perm _ votes := List.Perm.refl votes

/-- The address whose twenty bytes all equal `b`. -/
def addrOfByte (b : Byte) : Address where
  bytes := List.replicate 20 b
  len := List.length_replicate 20 b

/-- The candidates of a context: the address of each CandidateTrie entry, in
iteration order. -/
def candidatesOf (dc : types.DposContext) : List Address :=
  dc.candidateTrie.map fun e => BytesToAddress e.2

/-- The delegators of candidate `C`: the address of each DelegateTrie entry whose key
begins with the bytes of `C`, in iteration order. -/
def delegatorsOf (dc : types.DposContext) (C : Address) : List Address :=
  (dc.delegateTrie.PrefixIterator C.Bytes).map fun e => BytesToAddress e.2

/-- The data model of CandidateTrie: one entry per candidate, keyed by the 20 bytes
of its address, which are also the value. -/
def CandidateTrieWF (t : Trie Bytes) : Prop :=
  (t.map Prod.fst).Nodup ∧ ∀ e ∈ t, e.1.length = AddressLength ∧ e.2 = e.1

/-- The data model of DelegateTrie: one entry per key, the key being the 20 bytes of
the candidate followed by the 20 bytes of the delegator, which are also the value. -/
def DelegateTrieWF (t : Trie Bytes) : Prop :=
  (t.map Prod.fst).Nodup ∧
    ∀ e ∈ t, e.1.length = AddressLength + AddressLength ∧ e.2 = e.1.drop AddressLength

/-- The tally of a state as a sequence of weighted addresses: one entry per key of the
map `countVotes` returns. -/
def talliedCandidates (ec : EpochContext) : sortableAddresses :=
  ec.countVotes.1.map fun e => ⟨e.1, e.2⟩

/-- The state on which a round of `tryElect` tallies the votes: the one
`kickoutValidator` leaves when the gate lets it run, the incoming one otherwise. -/
def tallyState (cfg : Config) (lib : Lib) (prevEpoch : Int) (prevEpochIsGenesis : Bool)
    (iter : List (Bytes × Nat)) (ec : EpochContext) : EpochContext :=
  if (kickoutGate prevEpochIsGenesis iter).1 then (ec.kickoutValidator cfg lib prevEpoch).1
  else ec

/-- The executable `Lib` with the vote map enumerated in the opposite order. -/
def stdLibReversed : Lib where
  str := Address.Hex
  sorter := insertionSortImpl
  rand := lcgRand
  Keccak512 b := b ++ List.replicate (64 - b.length) 0
  KickoutCandidate := types.DposContext.KickoutCandidate
  rangeVotes _ votes := votes.reverse
  rangeVotes_perm _ votes := List.reverse_perm votes

/-- The constants of the scenarios of the specification: an epoch of 86400 seconds,
a block every 10 seconds, at most 21 validators, a floor of 15 candidates. -/
def scenarioCfg : Config where
  epochInterval := 86400
  blockInterval := 10
  maxValidatorSize := 21
  safeSize := 15
  timeOfFirstBlock := 0

/-- A context that holds only a validator slate. -/
def slateContext (validators : List Address) : types.DposContext where
  epochTrie := some validators
  candidateTrie := []
  delegateTrie := []
  voteTrie := []
  mintCntTrie := []

/-- An epoch context at time 86400 with the slate `[0x01…, 0x02…, 0x03…]`. -/
def slotEc : EpochContext where
  TimeStamp := 86400
  DposContext := slateContext [addrOfByte 1, addrOfByte 2, addrOfByte 3]
  statedb _ := 0

/-- Small constants for worked examples: epochs of 1000 seconds, a block every 10
seconds, at most 3 validators, a floor of 2 candidates. The kick-out threshold of a
full epoch is `1000 / 10 / 3 / 2 = 16`. -/
def smallCfg : Config where
  epochInterval := 1000
  blockInterval := 10
  maxValidatorSize := 3
  safeSize := 2
  timeOfFirstBlock := 0

/-- The CandidateTrie entry of a candidate. -/
def candidateEntry (c : Address) : Bytes × Bytes := (c.Bytes, c.Bytes)

/-- The DelegateTrie entry of a vote of delegator `d` for candidate `c`. -/
def delegateEntry (c d : Address) : Bytes × Bytes := (c.Bytes ++ d.Bytes, d.Bytes)

/-- The MintCntTrie entry of `cnt` blocks minted by `v` in `epoch`. -/
def mintCntEntry (epoch : Int) (v : Address) (cnt : Nat) : Bytes × Nat :=
  (PutUint64 (toUint64 epoch) ++ v.Bytes, cnt)

/-- Balances of the worked examples: `0xd1…` holds 5, `0xd2…` holds 7, `0xd3…` holds 12. -/
def demoBalance (a : Address) : Int :=
  if a = addrOfByte 0xd1 then 5
  else if a = addrOfByte 0xd2 then 7
  else if a = addrOfByte 0xd3 then 12
  else 0

/-- A worked example at time 2000 (epoch 2). The slate is `[0xa1…, 0xa2…, 0xa3…]` and
these three are the candidates; in epoch 1 they minted 1, 2 and 20 blocks; `0xd1…` and
`0xd2…` vote for `0xa2…`, `0xd3…` votes for `0xa3…`. -/
def demoEc : EpochContext where
  TimeStamp := 2000
  DposContext :=
    { epochTrie := some [addrOfByte 0xa1, addrOfByte 0xa2, addrOfByte 0xa3]
      candidateTrie :=
        [candidateEntry (addrOfByte 0xa1), candidateEntry (addrOfByte 0xa2),
          candidateEntry (addrOfByte 0xa3)]
      delegateTrie :=
        [delegateEntry (addrOfByte 0xa2) (addrOfByte 0xd1),
          delegateEntry (addrOfByte 0xa2) (addrOfByte 0xd2),
          delegateEntry (addrOfByte 0xa3) (addrOfByte 0xd3)]
      voteTrie := []
      mintCntTrie :=
        [mintCntEntry 1 (addrOfByte 0xa1) 1, mintCntEntry 1 (addrOfByte 0xa2) 2,
          mintCntEntry 1 (addrOfByte 0xa3) 20] }
  statedb := demoBalance

/-- The genesis header of the worked example, at time 0. -/
def demoGenesis : types.Header where
  Time := 0
  Hash := []

/-- The parent header of the worked example, at time 1500 (epoch 1). -/
def demoParent : types.Header where
  Time := 1500
  Hash := [1, 2, 3, 4]

/-- The worked example with a fourth candidate, `0xa4…`, which has no delegator. -/
def demoEc4 : EpochContext where
  TimeStamp := 2000
  DposContext :=
    { epochTrie := demoEc.DposContext.epochTrie
      candidateTrie := demoEc.DposContext.candidateTrie ++ [candidateEntry (addrOfByte 0xa4)]
      delegateTrie := demoEc.DposContext.delegateTrie
      voteTrie := []
      mintCntTrie := demoEc.DposContext.mintCntTrie }
  statedb := demoBalance

/-- The mint-count iterator `tryElect` opens in the worked example: the MintCntTrie
entries of epoch 1. -/
def demoIter : List (Bytes × Nat) :=
  demoEc.DposContext.mintCntTrie.PrefixIterator (PutUint64 (toUint64 1))

/-- The value of `prevEpochIsGenesis` in `tryElect`. -/
def prevEpochIsGenesisOf (cfg : Config) (genesis parent : types.Header) : Bool :=
  decide (parent.Time.tdiv cfg.epochInterval = genesis.Time.tdiv cfg.epochInterval)

/-- The value of `prevEpoch` in `tryElect` when its loop starts. -/
def prevEpochOf (cfg : Config) (ec : EpochContext) (genesis parent : types.Header) : Int :=
  if prevEpochIsGenesisOf cfg genesis parent = true ∧
      parent.Time.tdiv cfg.epochInterval < ec.TimeStamp.tdiv cfg.epochInterval then
    ec.TimeStamp.tdiv cfg.epochInterval - 1
  else parent.Time.tdiv cfg.epochInterval

/-- The number of rounds the loop of `tryElect` runs when none fails. -/
def roundsOf (cfg : Config) (ec : EpochContext) (genesis parent : types.Header) : Nat :=
  (ec.TimeStamp.tdiv cfg.epochInterval - prevEpochOf cfg ec genesis parent).toNat

/-- The iterator `tryElect` opens: the MintCntTrie entries whose key begins with
`bigendian64(prevEpoch)`. -/
def mintCntIterOf (cfg : Config) (ec : EpochContext) (genesis parent : types.Header) :
    List (Bytes × Nat) :=
  ec.DposContext.mintCntTrie.PrefixIterator
    (PutUint64 (toUint64 (prevEpochOf cfg ec genesis parent)))

/-- The epoch index, the iterator and the epoch context with which round `k` of the
loop of `tryElect` starts (rounds counted from 0), when the `k` rounds before it
returned no error. -/
def roundStart (cfg : Config) (lib : Lib) (parent : types.Header) (prevEpoch : Int)
    (prevEpochIsGenesis : Bool) :
    Nat → Int → List (Bytes × Nat) → EpochContext →
      Option (Int × List (Bytes × Nat) × EpochContext)
  | 0, i, iter, ec => some (i, iter, ec)
  | k + 1, i, iter, ec =>
    match electRound cfg lib parent prevEpoch prevEpochIsGenesis i iter ec with
    | ⟨_, _, some _⟩ => none
    | ⟨ec1, iter1, none⟩ =>
      roundStart cfg lib parent prevEpoch prevEpochIsGenesis k (i + 1) iter1 ec1

/-- The variant of `kickoutValidator` that the bounded pre-count is compared with:
`candidateCount` is the full number of CandidateTrie entries; everything else is as in
`kickoutValidatorLog`. -/
def kickoutValidatorFullCountLog (cfg : Config) (lib : Lib) (ec : EpochContext) (epoch : Int) :
    KickoutResult :=
  match ec.DposContext.GetValidators with
  | .error _ => ⟨ec.DposContext, [], some .failedToGetValidator⟩
  | .ok validators =>
    if validators.length = 0 then ⟨ec.DposContext, [], some .noValidatorCouldBeKickout⟩
    else
      let needKickout := needKickoutValidators cfg ec epoch validators
      let needKickoutValidatorCnt := needKickout.length
      if needKickoutValidatorCnt ≤ 0 then ⟨ec.DposContext, [], none⟩
      else
        let sorted := lib.sorter.sort (Reverse (sortableAddresses.Less lib.str)) needKickout
        let candidateCount : Int := ec.DposContext.candidateTrie.NodeIterator.length
        kickoutLoop cfg lib sorted candidateCount ec.DposContext []

/-- A `KickoutCandidate` whose store fails on the candidate `bad`, leaving the context
as it is, and works as the modelled one on every other candidate. -/
def kickFailingOn (bad : Address) (dc : types.DposContext) (candidateAddr : Address) :
    types.DposContext × Option Err :=
  if candidateAddr = bad then (dc, some .storeError) else dc.KickoutCandidate candidateAddr

/-- The executable `Lib` with a `KickoutCandidate` that fails on `bad`. -/
def libFailingOn (bad : Address) : Lib where
  str := Address.Hex
  sorter := insertionSortImpl
  rand := lcgRand
  Keccak512 b := b ++ List.replicate (64 - b.length) 0
  KickoutCandidate := kickFailingOn bad
  rangeVotes _ votes := votes
  rangeVotes_perm _ votes := List.Perm.refl votes

/-- The small constants with a floor of 5 candidates. -/
def strictCfg : Config where
  epochInterval := 1000
  blockInterval := 10
  maxValidatorSize := 3
  safeSize := 5
  timeOfFirstBlock := 0

/-- The worked example two epochs after the parent: time 3000 (epoch 3), four
candidates, and a single MintCntTrie entry for epoch 1, that of `0xa3…`. -/
def gapEc : EpochContext where
  TimeStamp := 3000
  DposContext :=
    { epochTrie := demoEc.DposContext.epochTrie
      candidateTrie := demoEc4.DposContext.candidateTrie
      delegateTrie := demoEc.DposContext.delegateTrie
      voteTrie := []
      mintCntTrie := [mintCntEntry 1 (addrOfByte 0xa3) 20] }
  statedb := demoBalance

/-- The worked example two epochs after the parent: time 3000 (epoch 3), five
candidates, and the three MintCntTrie entries of epoch 1. -/
def gapEc5 : EpochContext where
  TimeStamp := 3000
  DposContext :=
    { epochTrie := demoEc.DposContext.epochTrie
      candidateTrie := demoEc4.DposContext.candidateTrie ++ [candidateEntry (addrOfByte 0xa5)]
      delegateTrie := demoEc.DposContext.delegateTrie
      voteTrie := []
      mintCntTrie := demoEc.DposContext.mintCntTrie }
  statedb := demoBalance

/-- An epoch context at time 2000 whose CandidateTrie is empty. -/
def emptyEc : EpochContext where
  TimeStamp := 2000
  DposContext := slateContext [addrOfByte 0xa1]
  statedb := demoBalance

/-- The shuffle seed as the specification words it: the first four bytes of the digest,
little-endian, as an unsigned 32-bit number that is sign-extended to 64 bits, plus the
epoch index, wrapping on 64 bits. It is compared with `shuffleSeed`, which follows the
source. -/
def shuffleSeedSignExtended (lib : Lib) (parent : types.Header) (i : Int) : Int :=
  wrap64 (toInt32 (LittleEndianUint32 (lib.Keccak512 parent.Hash)) + i)

/-- A parent header whose hash makes the digest of `stdLib` begin with the bytes
`00 00 00 80`. -/
def highBitParent : types.Header where
  Time := 1500
  Hash := [0, 0, 0, 128]

/-! ## light/trie_test.go: diffTries -/

/-- The errors `diffTries` returns. -/
inductive DiffErr where
  | differentKeys
  | differAtKey
  | fullHasMore
  | lightHasMore
deriving DecidableEq, Repr

/-- The loop of `diffTries`, `for i1.Next() && i2.Next()`, on the entries the two
iterators have not yet yielded. It returns the error of the loop body, if any, and what
the iterators still hold when the loop ends. `i2.Next()` is not called when `i1.Next()`
is false; when `i1.Next()` is true and `i2.Next()` is false, the first iterator has
advanced past one entry. The value test of the source compares `i2.Value` with itself. -/
def diffTriesLoop : List (Bytes × Bytes) → List (Bytes × Bytes) →
    Option DiffErr × List (Bytes × Bytes) × List (Bytes × Bytes)
  | [], i2 => (none, [], i2)
  | _ :: i1, [] => (none, i1, [])
  | e1 :: i1, e2 :: i2 =>
    if e1.1 ≠ e2.1 then (some .differentKeys, i1, i2)
    else if e2.2 ≠ e2.2 then (some .differAtKey, i1, i2)
    else diffTriesLoop i1 i2

/-- Go `diffTries(t1, t2)` of `light/trie_test.go`, for tries whose iterators raise no
error: `none` is Go `nil`. After the loop the `switch` calls `i1.Next()` and then
`i2.Next()`. -/
def diffTries (t1 t2 : Trie Bytes) : Option DiffErr :=
  match diffTriesLoop t1.NodeIterator t2.NodeIterator with
  | (some err, _, _) => some err
  | (none, _ :: _, _) => some .fullHasMore
  | (none, [], _ :: _) => some .lightHasMore
  | (none, [], []) => none

/-! ## Properties of the ordering -/

theorem strLess_irrefl (s : GoString) : strLess s s = false := by
  induction s with
  | nil => rfl
  | cons a s ih => simp [strLess, ih]

theorem strLess_trans : ∀ s t u : GoString,
    strLess s t = true → strLess t u = true → strLess s u = true
  | [], [], _, h, _ => by simp [strLess] at h
  | [], _ :: _, [], _, h => by simp [strLess] at h
  | [], _ :: _, _ :: _, _, _ => by simp [strLess]
  | _ :: _, [], _, h, _ => by simp [strLess] at h
  | _ :: _, _ :: _, [], _, h => by simp [strLess] at h
  | a :: s, b :: t, c :: u, h1, h2 => by
    simp only [strLess] at h1 h2 ⊢
    by_cases hab : a < b
    · by_cases hbc : b < c
      · simp [show a < c by omega]
      · by_cases hcb : c < b
        · simp [hbc, hcb] at h2
        · simp [show a < c by omega]
    · by_cases hba : b < a
      · simp [hab, hba] at h1
      · have hEq : a = b := by omega
        subst hEq
        by_cases hbc : a < c
        · simp [hbc]
        · by_cases hcb : c < a
          · simp [hbc, hcb] at h2
          · simp only [hab, hbc, hcb, if_false] at h1 h2 ⊢
            exact strLess_trans s t u h1 h2

theorem strLess_connected : ∀ s t : GoString,
    s ≠ t → strLess s t = true ∨ strLess t s = true
  | [], [], h => absurd rfl h
  | [], _ :: _, _ => by simp [strLess]
  | _ :: _, [], _ => by simp [strLess]
  | a :: s, b :: t, h => by
    simp only [strLess]
    by_cases hab : a < b
    · simp [hab]
    · by_cases hba : b < a
      · simp [hba]
      · have hEq : a = b := by omega
        subst hEq
        have hst : s ≠ t := fun hst => h (by rw [hst])
        simpa [hab] using strLess_connected s t hst

theorem strLess_asymm (s t : GoString) (h : strLess s t = true) : strLess t s = false := by
  cases hts : strLess t s with
  | false => rfl
  | true =>
    have := strLess_trans s t s h hts
    rw [strLess_irrefl] at this
    exact Bool.noConfusion this

theorem strLess_negtrans (s t u : GoString) (h1 : strLess s t = false)
    (h2 : strLess t u = false) : strLess s u = false := by
  cases hsu : strLess s u with
  | false => rfl
  | true =>
    by_cases hst : s = t
    · subst hst
      rw [hsu] at h2
      exact Bool.noConfusion h2
    · rcases strLess_connected s t hst with h | h
      · rw [h] at h1
        exact Bool.noConfusion h1
      · have := strLess_trans t s u h hsu
        rw [this] at h2
        exact Bool.noConfusion h2

theorem Less_eq_true_iff (str : Address → GoString) (a b : sortableAddress) :
    sortableAddresses.Less str a b = true ↔
      b.weight < a.weight ∨ (a.weight = b.weight ∧ strLess (str a.address) (str b.address) = true) := by
  unfold sortableAddresses.Less
  by_cases h1 : a.weight < b.weight
  · rw [if_pos h1]
    constructor
    · intro h
      exact Bool.noConfusion h
    · rintro (h | ⟨h, _⟩) <;> omega
  · by_cases h2 : a.weight > b.weight
    · rw [if_neg h1, if_pos h2]
      exact ⟨fun _ => Or.inl h2, fun _ => rfl⟩
    · rw [if_neg h1, if_neg h2]
      constructor
      · intro h
        exact Or.inr ⟨by omega, h⟩
      · rintro (h | ⟨_, h⟩)
        · exact absurd h h2
        · exact h

theorem Less_eq_false_iff (str : Address → GoString) (a b : sortableAddress) :
    sortableAddresses.Less str a b = false ↔
      a.weight < b.weight ∨ (a.weight = b.weight ∧ strLess (str a.address) (str b.address) = false) := by
  rw [← Bool.not_eq_true, Less_eq_true_iff]
  constructor
  · intro h
    by_cases h1 : a.weight < b.weight
    · exact Or.inl h1
    · right
      have h2 : ¬ b.weight < a.weight := fun h2 => h (Or.inl h2)
      have h3 : a.weight = b.weight := by omega
      refine ⟨h3, ?_⟩
      cases hs : strLess (str a.address) (str b.address) with
      | false => rfl
      | true => exact absurd (Or.inr ⟨h3, hs⟩) h
  · rintro (h | ⟨h, hs⟩) (h2 | ⟨h2, hs2⟩)
    · omega
    · omega
    · omega
    · rw [hs] at hs2
      exact Bool.noConfusion hs2

theorem Less_strictWeakOrder (str : Address → GoString) :
    StrictWeakOrder (sortableAddresses.Less str) := by
  refine ⟨fun a => ?_, fun a b c hab hbc => ?_, fun a b c hab hbc => ?_⟩
  · rw [Less_eq_false_iff]
    exact Or.inr ⟨rfl, strLess_irrefl _⟩
  · rw [Less_eq_true_iff] at hab hbc ⊢
    rcases hab with h1 | ⟨h1, s1⟩ <;> rcases hbc with h2 | ⟨h2, s2⟩
    · exact Or.inl (by omega)
    · exact Or.inl (by omega)
    · exact Or.inl (by omega)
    · exact Or.inr ⟨by omega, strLess_trans _ _ _ s1 s2⟩
  · rw [Less_eq_false_iff] at hab hbc ⊢
    rcases hab with h1 | ⟨h1, s1⟩ <;> rcases hbc with h2 | ⟨h2, s2⟩
    · exact Or.inl (by omega)
    · exact Or.inl (by omega)
    · exact Or.inl (by omega)
    · exact Or.inr ⟨by omega, strLess_negtrans _ _ _ s1 s2⟩

theorem Reverse_strictWeakOrder (less : sortableAddress → sortableAddress → Bool)
    (h : StrictWeakOrder less) : StrictWeakOrder (Reverse less) :=
  ⟨fun a => h.1 a, fun a b c hab hbc => h.2.1 c b a hbc hab,
    fun a b c hab hbc => h.2.2 c b a hbc hab⟩

theorem Less_asymm (str : Address → GoString) (a b : sortableAddress)
    (h : sortableAddresses.Less str a b = true) : sortableAddresses.Less str b a = false := by
  cases hba : sortableAddresses.Less str b a with
  | false => rfl
  | true =>
    have := (Less_strictWeakOrder str).2.1 a b a h hba
    rw [(Less_strictWeakOrder str).1 a] at this
    exact Bool.noConfusion this

theorem Less_connected (str : Address → GoString) (hstr : Function.Injective str)
    (a b : sortableAddress) (h : a.address ≠ b.address) :
    sortableAddresses.Less str a b = true ∨ sortableAddresses.Less str b a = true := by
  simp only [Less_eq_true_iff]
  by_cases h1 : b.weight < a.weight
  · exact Or.inl (Or.inl h1)
  · by_cases h2 : a.weight < b.weight
    · exact Or.inr (Or.inl h2)
    · have h3 : a.weight = b.weight := by omega
      have hne : str a.address ≠ str b.address := fun he => h (hstr he)
      rcases strLess_connected _ _ hne with hs | hs
      · exact Or.inl (Or.inr ⟨h3, hs⟩)
      · exact Or.inr (Or.inr ⟨h3.symm, hs⟩)

/-- With an injective textual form, two entries neither of which is `Less` than the
other are the same entry. -/
theorem Less_antisymm (str : Address → GoString) (hstr : Function.Injective str)
    (a b : sortableAddress) (hab : sortableAddresses.Less str b a = false)
    (hba : sortableAddresses.Less str a b = false) : a = b := by
  have haddr : a.address = b.address := by
    by_contra hne
    rcases Less_connected str hstr a b hne with h | h
    · rw [h] at hba
      exact Bool.noConfusion hba
    · rw [h] at hab
      exact Bool.noConfusion hab
  rw [Less_eq_false_iff] at hab hba
  have hw : a.weight = b.weight := by
    rcases hab with h | ⟨h, _⟩ <;> rcases hba with h2 | ⟨h2, _⟩ <;> omega
  cases a
  cases b
  simp_all

/-- A sorted rearrangement is unique: two lists with the same entries, both in an
order where no later entry is `Less` than an earlier one, are equal. -/
theorem sorted_perm_unique (str : Address → GoString) (hstr : Function.Injective str)
    (p q : sortableAddresses) (hperm : p.Perm q)
    (hp : p.Pairwise fun a b => sortableAddresses.Less str b a = false)
    (hq : q.Pairwise fun a b => sortableAddresses.Less str b a = false) : p = q := by
  have hanti : IsAntisymm sortableAddress fun a b => sortableAddresses.Less str b a = false :=
    ⟨fun a b hab hba => Less_antisymm str hstr a b hab hba⟩
  exact List.eq_of_perm_of_sorted hperm hp hq

theorem hexDigit_injective (m n : Nat) (hm : m < 16) (hn : n < 16)
    (h : hexDigit m = hexDigit n) : m = n := by
  unfold hexDigit at h
  split_ifs at h <;> omega

theorem hexBytes_injective : ∀ s t : Bytes,
    (s.flatMap fun b => [hexDigit (b.val / 16), hexDigit (b.val % 16)]) =
      (t.flatMap fun b => [hexDigit (b.val / 16), hexDigit (b.val % 16)]) → s = t
  | [], [], _ => rfl
  | [], _ :: _, h => by simp [List.flatMap] at h
  | _ :: _, [], h => by simp [List.flatMap] at h
  | x :: s, y :: t, h => by
    simp only [List.flatMap_cons, List.cons_append, List.nil_append, List.cons.injEq] at h
    obtain ⟨h1, h2, h3⟩ := h
    have hx := x.isLt
    have hy := y.isLt
    have e1 := hexDigit_injective _ _ (by omega) (by omega) h1
    have e2 := hexDigit_injective _ _ (by omega) (by omega) h2
    have hxy : x = y := Fin.ext (by omega)
    rw [hxy, hexBytes_injective s t h3]

theorem Hex_injective : Function.Injective Address.Hex := by
  intro a b h
  unfold Address.Hex at h
  simp only [List.cons.injEq, true_and] at h
  have hb := hexBytes_injective _ _ h
  cases a
  cases b
  simp_all

/-! ## Ordering: the claims -/

/-- C7 (total-order stability). `sortableAddresses.Less` ranks `a` before `b` when the
weight of `a` is strictly greater, or the weights are equal and the text of `a` is
smaller. It is a strict weak order; on entries with distinct addresses exactly one of
`Less a b` and `Less b a` holds (a strict total order); every implementation of
`sort.Sort` returns an already sorted sequence unchanged; and of two entries of weight
10 the one with the smaller text is `Less` and is placed first. The textual form of
addresses is assumed injective. -/
theorem Less_strict_weak_order_resort_noop (str : Address → GoString)
    (hstr : Function.Injective str) :
    StrictWeakOrder (sortableAddresses.Less str) ∧
    (∀ a b : sortableAddress,
      (sortableAddresses.Less str a b = true ↔
        b.weight < a.weight ∨
          (a.weight = b.weight ∧ strLess (str a.address) (str b.address) = true))) ∧
    (∀ a b : sortableAddress, a.address ≠ b.address →
      (sortableAddresses.Less str a b = true ↔ sortableAddresses.Less str b a = false)) ∧
    (∀ (S : SortImpl) (p : sortableAddresses),
      p.Pairwise (fun a b => sortableAddresses.Less str b a = false) →
        S.sort (sortableAddresses.Less str) p = p) ∧
    (∀ (S : SortImpl) (a b : sortableAddress), a.weight = 10 → b.weight = 10 →
      strLess (str a.address) (str b.address) = true →
        sortableAddresses.Less str a b = true ∧ sortableAddresses.Less str b a = false ∧
          S.sort (sortableAddresses.Less str) [b, a] = [a, b] ∧
          S.sort (sortableAddresses.Less str) [a, b] = [a, b]) := by
  have hswo := Less_strictWeakOrder str
  have hnoop : ∀ (S : SortImpl) (p : sortableAddresses),
      p.Pairwise (fun a b => sortableAddresses.Less str b a = false) →
        S.sort (sortableAddresses.Less str) p = p := fun S p hp =>
    sorted_perm_unique str hstr _ _ (S.perm _ p) (S.sorted _ hswo p) hp
  refine ⟨hswo, Less_eq_true_iff str, fun a b hne => ⟨Less_asymm str a b, fun h => ?_⟩, hnoop,
    fun S a b ha hb hs => ?_⟩
  · rcases Less_connected str hstr a b hne with h1 | h1
    · exact h1
    · rw [h1] at h
      exact Bool.noConfusion h
  · have hab : sortableAddresses.Less str a b = true :=
      (Less_eq_true_iff str a b).2 (Or.inr ⟨by omega, hs⟩)
    have hba := Less_asymm str a b hab
    have hsorted : [a, b].Pairwise (fun a b => sortableAddresses.Less str b a = false) := by
      simp [hba]
    refine ⟨hab, hba, ?_, hnoop S _ hsorted⟩
    exact sorted_perm_unique str hstr _ _ ((S.perm _ [b, a]).trans (List.Perm.swap a b []))
      (S.sorted _ hswo _) hsorted

/-- C7, at the hexadecimal text: with weight 10 on both, `0xaa…` is placed before
`0xbb…` by insertion sort, whichever order they start in. -/
theorem Less_strict_weak_order_resort_noop_witness :
    Function.Injective Address.Hex ∧
    strLess (addrOfByte 0xaa).Hex (addrOfByte 0xbb).Hex = true ∧
    sortableAddresses.Less Address.Hex ⟨addrOfByte 0xaa, 10⟩ ⟨addrOfByte 0xbb, 10⟩ = true ∧
    insertionSortImpl.sort (sortableAddresses.Less Address.Hex)
      [⟨addrOfByte 0xbb, 10⟩, ⟨addrOfByte 0xaa, 10⟩] =
        [⟨addrOfByte 0xaa, 10⟩, ⟨addrOfByte 0xbb, 10⟩] :=
  have h := (Less_strict_weak_order_resort_noop Address.Hex Hex_injective).2.2.2.2
    insertionSortImpl ⟨addrOfByte 0xaa, 10⟩ ⟨addrOfByte 0xbb, 10⟩ rfl rfl (by decide)
  ⟨Hex_injective, by decide, h.1, h.2.2.1⟩

/-! ## lookupValidator: the claims -/

/-- For a non-negative aligned `now`, positive intervals and a slate of positive
length, `lookupValidator` computes the mathematical slot index and indexes the slate. -/
theorem lookupValidator_of_aligned (cfg : Config) (ec : EpochContext) (validators : List Address)
    (now : Int) (hE : 0 < cfg.epochInterval) (hB : 0 < cfg.blockInterval) (hnow : 0 ≤ now)
    (halign : now % cfg.epochInterval % cfg.blockInterval = 0)
    (hv : ec.DposContext.GetValidators = .ok validators) (hne : validators ≠ []) :
    ec.lookupValidator cfg now =
      indexAddress validators
        (now % cfg.epochInterval / cfg.blockInterval % (validators.length : Int)) := by
  have hlen : validators.length ≠ 0 := fun h => hne (List.length_eq_zero.mp h)
  have ho : 0 ≤ now % cfg.epochInterval := Int.emod_nonneg _ (by omega)
  have hq : 0 ≤ now % cfg.epochInterval / cfg.blockInterval := Int.ediv_nonneg ho (by omega)
  unfold EpochContext.lookupValidator
  simp only [hv]
  rw [Int.tmod_eq_emod hnow (by omega), Int.tmod_eq_emod ho (by omega),
    Int.tdiv_eq_ediv ho (by omega), Int.tmod_eq_emod hq (by omega)]
  simp [halign, hlen]

/-- C5 (slot lookup result). With positive intervals, for every non-negative `now` with
`(now mod epochInterval) mod blockInterval = 0` and every non-empty slate,
`lookupValidator(now)` succeeds and returns
`validators[((now mod epochInterval) / blockInterval) mod len(validators)]`; with
`epochInterval = 86400`, `blockInterval = 10`, slate `[A, B, C]` and `now = 30` it
returns `A`. -/
theorem lookupValidator_slot :
    (∀ (cfg : Config) (ec : EpochContext) (validators : List Address) (now : Int),
      0 < cfg.epochInterval → 0 < cfg.blockInterval → 0 ≤ now →
      now % cfg.epochInterval % cfg.blockInterval = 0 →
      ec.DposContext.GetValidators = .ok validators → validators ≠ [] →
      ∃ v, validators[(now % cfg.epochInterval / cfg.blockInterval
              % (validators.length : Int)).toNat]? = some v ∧
        ec.lookupValidator cfg now = .ok v) ∧
    (∀ (cfg : Config) (ec : EpochContext) (A B C : Address),
      cfg.epochInterval = 86400 → cfg.blockInterval = 10 →
      ec.DposContext.GetValidators = .ok [A, B, C] →
      ec.lookupValidator cfg 30 = .ok A) := by
  constructor
  · intro cfg ec validators now hE hB hnow halign hv hne
    have hlen : 0 < validators.length := List.length_pos.mpr hne
    have ho : 0 ≤ now % cfg.epochInterval := Int.emod_nonneg _ (by omega)
    have hq : 0 ≤ now % cfg.epochInterval / cfg.blockInterval := Int.ediv_nonneg ho (by omega)
    have hi0 : 0 ≤ now % cfg.epochInterval / cfg.blockInterval % (validators.length : Int) :=
      Int.emod_nonneg _ (by omega)
    have hi1 : now % cfg.epochInterval / cfg.blockInterval % (validators.length : Int)
        < (validators.length : Int) := Int.emod_lt_of_pos _ (by omega)
    have hlt : (now % cfg.epochInterval / cfg.blockInterval
        % (validators.length : Int)).toNat < validators.length := by omega
    refine ⟨validators[(now % cfg.epochInterval / cfg.blockInterval
        % (validators.length : Int)).toNat], List.getElem?_eq_getElem hlt, ?_⟩
    rw [lookupValidator_of_aligned cfg ec validators now hE hB hnow halign hv hne]
    unfold indexAddress
    rw [if_neg (by omega), List.getElem?_eq_getElem hlt]
  · intro cfg ec A B C hE hB hv
    rw [lookupValidator_of_aligned cfg ec [A, B, C] 30 (by omega) (by omega) (by omega)
      (by rw [hE, hB]; decide) hv (by simp)]
    rw [hE, hB]
    have h0 : (30 : Int) % 86400 / 10 % (([A, B, C] : List Address).length : Int) = 0 := by
      simp only [List.length_cons, List.length_nil]
      decide
    rw [h0]
    rfl

/-- C5 at `now = 40` on the slate `[0x01…, 0x02…, 0x03…]`: slot 4 mod 3 = 1. -/
theorem lookupValidator_slot_witness :
    ∃ v, [addrOfByte 1, addrOfByte 2, addrOfByte 3][((40 : Int) % scenarioCfg.epochInterval
            / scenarioCfg.blockInterval
            % (([addrOfByte 1, addrOfByte 2, addrOfByte 3] : List Address).length : Int)).toNat]?
          = some v ∧
      slotEc.lookupValidator scenarioCfg 40 = .ok v :=
  lookupValidator_slot.1 scenarioCfg slotEc [addrOfByte 1, addrOfByte 2, addrOfByte 3] 40
    (by decide) (by decide) (by decide) (by decide) rfl (by simp)

/-- The result of `lookupValidator` on a non-negative timestamp, in terms of the
mathematical quotient and remainder. -/
theorem lookupValidator_nonneg (cfg : Config) (ec : EpochContext) (validators : List Address)
    (now : Int) (hE : 0 < cfg.epochInterval) (hB : 0 < cfg.blockInterval) (hnow : 0 ≤ now)
    (hv : ec.DposContext.GetValidators = .ok validators) :
    ec.lookupValidator cfg now =
      if now % cfg.epochInterval % cfg.blockInterval ≠ 0 then .error .ErrInvalidMintBlockTime
      else if validators.length = 0 then .error .failedToLookupValidator
      else indexAddress validators
        (now % cfg.epochInterval / cfg.blockInterval % (validators.length : Int)) := by
  have ho : 0 ≤ now % cfg.epochInterval := Int.emod_nonneg _ (by omega)
  have hq : 0 ≤ now % cfg.epochInterval / cfg.blockInterval := Int.ediv_nonneg ho (by omega)
  unfold EpochContext.lookupValidator
  simp only [hv]
  rw [Int.tmod_eq_emod hnow (by omega), Int.tmod_eq_emod ho (by omega),
    Int.tdiv_eq_ediv ho (by omega), Int.tmod_eq_emod hq (by omega)]

/-- C6 (slot periodicity). With positive intervals, for every slate, every non-negative
timestamp `t` and every natural `n` such that `t` and
`t + n * blockInterval * len(validators)` have the same quotient by `epochInterval`,
`lookupValidator` returns the same result (address or error) for both. -/
theorem lookupValidator_periodic (cfg : Config) (ec : EpochContext)
    (validators : List Address) (t : Int) (n : Nat)
    (hE : 0 < cfg.epochInterval) (hB : 0 < cfg.blockInterval) (ht : 0 ≤ t)
    (hv : ec.DposContext.GetValidators = .ok validators)
    (hsame : t / cfg.epochInterval
      = (t + n * cfg.blockInterval * validators.length) / cfg.epochInterval) :
    ec.lookupValidator cfg (t + n * cfg.blockInterval * validators.length)
      = ec.lookupValidator cfg t := by
  have hk : (0 : Int) ≤ n * cfg.blockInterval * validators.length :=
    Int.mul_nonneg (Int.mul_nonneg (by omega) (by omega)) (by omega)
  have hoff : (t + n * cfg.blockInterval * validators.length) % cfg.epochInterval
      = t % cfg.epochInterval + (n * validators.length : Int) * cfg.blockInterval := by
    rw [Int.emod_def, Int.emod_def, ← hsame]
    ring
  rw [lookupValidator_nonneg cfg ec validators _ hE hB (by omega) hv,
    lookupValidator_nonneg cfg ec validators t hE hB ht hv, hoff, Int.add_mul_emod_self,
    Int.add_mul_ediv_right _ _ (by omega : cfg.blockInterval ≠ 0), Int.add_mul_emod_self]

/-- C6 at `t = 20`, `n = 2` on a slate of three: `lookupValidator(80)` and
`lookupValidator(20)` agree. -/
theorem lookupValidator_periodic_witness :
    slotEc.lookupValidator scenarioCfg
        (20 + (2 : Nat) * scenarioCfg.blockInterval
          * ([addrOfByte 1, addrOfByte 2, addrOfByte 3] : List Address).length)
      = slotEc.lookupValidator scenarioCfg 20 :=
  lookupValidator_periodic scenarioCfg slotEc [addrOfByte 1, addrOfByte 2, addrOfByte 3] 20 2
    (by decide) (by decide) (by decide) rfl (by decide)

/-! ## kickoutValidator: the claims -/

theorem mem_needKickoutValidators (cfg : Config) (ec : EpochContext) (epoch : Int)
    (validators : List Address) (s : sortableAddress) :
    s ∈ needKickoutValidators cfg ec epoch validators ↔
      s.address ∈ validators ∧ s.weight = mintCnt ec epoch s.address ∧
        mintCnt ec epoch s.address < kickoutThreshold cfg ec := by
  induction validators with
  | nil => simp [needKickoutValidators]
  | cons v rest ih =>
    unfold needKickoutValidators
    by_cases hlt : mintCnt ec epoch v < kickoutThreshold cfg ec
    · simp only [hlt, if_true, List.mem_cons, ih]
      constructor
      · rintro (h | h)
        · subst h
          exact ⟨Or.inl rfl, rfl, hlt⟩
        · exact ⟨Or.inr h.1, h.2⟩
      · rintro ⟨h | h, hw, hc⟩
        · left
          cases s
          simp_all
        · exact Or.inr ⟨h, hw, hc⟩
    · simp only [hlt, if_false, List.mem_cons, ih]
      constructor
      · rintro ⟨h, hw, hc⟩
        exact ⟨Or.inr h, hw, hc⟩
      · rintro ⟨h | h, hw, hc⟩
        · rw [h] at hc
          exact absurd hc hlt
        · exact ⟨h, hw, hc⟩

/-- C9 (kick-out threshold). `kickoutValidator(epoch)` marks a validator `V` of the
slate exactly when its mint count is strictly less than
`D / blockInterval / maxValidatorSize / 2` (Go integer division), with
`D = TimeStamp − timeOfFirstBlock` when that is less than `epochInterval` and
`D = epochInterval` otherwise, and records the count as the weight. The count is the
MintCntTrie value at `bigendian64(epoch) ‖ V` read as `int64`: zero when absent, the
stored counter when that is below 2^63. With `blockInterval = 10` and
`maxValidatorSize = 21`, `D = 86400` gives 205 (204 is below it, 205 is not) and
`D = 3600` gives 8. -/
theorem kickout_threshold (cfg : Config) (ec : EpochContext) (epoch : Int)
    (validators : List Address) (V : Address) :
    (V ∈ (needKickoutValidators cfg ec epoch validators).map (fun s => s.address) ↔
      V ∈ validators ∧ mintCnt ec epoch V < kickoutThreshold cfg ec) ∧
    (∀ s ∈ needKickoutValidators cfg ec epoch validators,
      s.weight = mintCnt ec epoch s.address) ∧
    (ec.DposContext.mintCntTrie.Get (PutUint64 (toUint64 epoch) ++ V.Bytes) = none →
      mintCnt ec epoch V = 0) ∧
    (∀ c : Nat, ec.DposContext.mintCntTrie.Get (PutUint64 (toUint64 epoch) ++ V.Bytes) = some c →
      c < 2 ^ 63 → mintCnt ec epoch V = c) ∧
    kickoutThreshold cfg ec =
      (((if wrap64 (ec.TimeStamp - cfg.timeOfFirstBlock) < cfg.epochInterval
          then wrap64 (ec.TimeStamp - cfg.timeOfFirstBlock)
          else cfg.epochInterval).tdiv cfg.blockInterval).tdiv cfg.maxValidatorSize).tdiv 2 ∧
    (cfg.blockInterval = 10 → cfg.maxValidatorSize = 21 → epochDuration cfg ec = 86400 →
      kickoutThreshold cfg ec = 205 ∧ (204 : Int) < kickoutThreshold cfg ec ∧
        ¬ (205 : Int) < kickoutThreshold cfg ec) ∧
    (cfg.blockInterval = 10 → cfg.maxValidatorSize = 21 → cfg.epochInterval = 86400 →
      ec.TimeStamp - cfg.timeOfFirstBlock = 3600 → kickoutThreshold cfg ec = 8) := by
  refine ⟨?_, fun s hs => ((mem_needKickoutValidators cfg ec epoch validators s).1 hs).2.1,
    fun h => ?_, fun c h hc => ?_, rfl, fun hB hM hD => ?_, fun hB hM hE hT => ?_⟩
  · simp only [List.mem_map, mem_needKickoutValidators]
    constructor
    · rintro ⟨s, ⟨h1, _, h3⟩, rfl⟩
      exact ⟨h1, h3⟩
    · rintro ⟨h1, h2⟩
      exact ⟨⟨V, mintCnt ec epoch V⟩, ⟨h1, rfl, h2⟩, rfl⟩
  · simp only [mintCnt, h]
  · simp only [mintCnt, h, toInt64]
    have hc64 : c % 2 ^ 64 = c := Nat.mod_eq_of_lt (by omega)
    rw [hc64, if_pos hc]
  · have h : kickoutThreshold cfg ec = 205 := by
      unfold kickoutThreshold
      rw [hD, hB, hM]
      decide
    rw [h]
    exact ⟨rfl, by decide, by decide⟩
  · unfold kickoutThreshold epochDuration
    rw [hT, hB, hM, hE]
    decide

/-! ## countVotes: the claims -/

theorem VoteMap.get_eq_none (votes : VoteMap) (k : Address)
    (h : k ∉ votes.map Prod.fst) : votes.get k = none := by
  unfold VoteMap.get
  rw [Option.map_eq_none', List.find?_eq_none]
  intro e he hk
  exact h (List.mem_map.2 ⟨e, he, by simpa using hk⟩)

theorem VoteMap.set_of_not_mem (votes : VoteMap) (k : Address) (v : Int)
    (h : k ∉ votes.map Prod.fst) : votes.set k v = votes ++ [(k, v)] := by
  induction votes with
  | nil => rfl
  | cons e rest ih =>
    simp only [List.map_cons, List.mem_cons, not_or] at h
    unfold VoteMap.set
    rw [if_neg (fun he => h.1 he.symm), ih h.2]
    rfl

theorem VoteMap.set_set (votes : VoteMap) (k : Address) (v w : Int) :
    (votes.set k v).set k w = votes.set k w := by
  induction votes with
  | nil => simp [VoteMap.set]
  | cons e rest ih =>
    by_cases he : e.1 = k
    · simp [VoteMap.set, he]
    · simp [VoteMap.set, he, ih]

theorem VoteMap.get_set_self (votes : VoteMap) (k : Address) (v : Int) :
    (votes.set k v).get k = some v := by
  induction votes with
  | nil => simp [VoteMap.set, VoteMap.get]
  | cons e rest ih =>
    unfold VoteMap.set
    by_cases he : e.1 = k
    · simp [he, VoteMap.get]
    · simp only [he, if_false]
      unfold VoteMap.get at ih ⊢
      rw [List.find?_cons_of_neg _ (by simpa using he)]
      exact ih

theorem VoteMap.get_append_singleton (votes : VoteMap) (k : Address) (v : Int)
    (h : k ∉ votes.map Prod.fst) : (votes ++ [(k, v)]).get k = some v := by
  rw [← VoteMap.set_of_not_mem votes k v h]
  exact VoteMap.get_set_self votes k v

/-- The sum of the balances of the delegators that a list of DelegateTrie entries names. -/
theorem countDelegators_eq (statedb : Address → Int) (C : Address) :
    ∀ (d : Bytes × Bytes) (ds : List (Bytes × Bytes)) (votes : VoteMap),
      countDelegators statedb C (d :: ds) votes =
        votes.set C ((votes.get C).getD 0
          + ((d :: ds).map fun e => statedb (BytesToAddress e.2)).sum)
  | d, [], votes => by simp [countDelegators]
  | d, d1 :: ds, votes => by
    rw [countDelegators, countDelegators_eq statedb C d1 ds, VoteMap.get_set_self,
      VoteMap.set_set]
    simp only [Option.getD_some, List.map_cons, List.sum_cons]
    rw [Int.add_assoc]

/-- On candidates that are pairwise distinct and not yet in the map, the outer loop
appends one entry per candidate: its address and the sum of its delegators' balances. -/
theorem countCandidates_eq (delegateTrie : Trie Bytes) (statedb : Address → Int) :
    ∀ (cs : List (Bytes × Bytes)) (votes : VoteMap),
      (cs.map fun e => BytesToAddress e.2).Nodup →
      (∀ e ∈ cs, BytesToAddress e.2 ∉ votes.map Prod.fst) →
      countCandidates delegateTrie statedb cs votes =
        votes ++ cs.map fun e =>
          (BytesToAddress e.2,
            ((delegateTrie.PrefixIterator e.2).map fun d => statedb (BytesToAddress d.2)).sum)
  | [], votes, _, _ => by simp [countCandidates]
  | c :: cs, votes, hnd, hfresh => by
    have hc : BytesToAddress c.2 ∉ votes.map Prod.fst := hfresh c (List.mem_cons_self _ _)
    simp only [List.map_cons, List.nodup_cons] at hnd
    have hstep : ∀ v : Int, ∀ e ∈ cs,
        BytesToAddress e.2 ∉ (votes ++ [(BytesToAddress c.2, v)]).map Prod.fst := by
      intro v e he
      simp only [List.map_append, List.map_cons, List.map_nil, List.mem_append,
        List.mem_singleton, not_or]
      refine ⟨hfresh e (List.mem_cons_of_mem _ he), fun heq => hnd.1 ?_⟩
      rw [← heq]
      exact List.mem_map.2 ⟨e, he, rfl⟩
    rw [countCandidates]
    cases hds : delegateTrie.PrefixIterator c.2 with
    | nil =>
      rw [VoteMap.set_of_not_mem votes _ _ hc, countCandidates_eq delegateTrie statedb cs _ hnd.2
        (hstep 0)]
      simp [hds]
    | cons d ds =>
      show countCandidates delegateTrie statedb cs
        (countDelegators statedb (BytesToAddress c.2) (d :: ds) votes) = _
      rw [countDelegators_eq, VoteMap.get_eq_none votes _ hc,
        VoteMap.set_of_not_mem votes _ _ hc,
        countCandidates_eq delegateTrie statedb cs _ hnd.2 (hstep _)]
      simp [hds]

theorem BytesToAddress_bytes (b : Bytes) (h : b.length = AddressLength) :
    (BytesToAddress b).bytes = b := by
  simp [BytesToAddress, h]

theorem BytesToAddress_injOn (b c : Bytes) (hb : b.length = AddressLength)
    (hc : c.length = AddressLength) (h : BytesToAddress b = BytesToAddress c) : b = c := by
  rw [← BytesToAddress_bytes b hb, ← BytesToAddress_bytes c hc, h]

theorem VoteMap.get_of_mem (votes : VoteMap) (k : Address) (v : Int)
    (hnd : (votes.map Prod.fst).Nodup) (h : (k, v) ∈ votes) : votes.get k = some v := by
  induction votes with
  | nil => simp at h
  | cons e rest ih =>
    simp only [List.map_cons, List.nodup_cons] at hnd
    rcases List.mem_cons.1 h with h | h
    · subst h
      simp [VoteMap.get]
    · have hne : e.1 ≠ k := by
        intro he
        apply hnd.1
        rw [he]
        exact List.mem_map.2 ⟨(k, v), h, rfl⟩
      have := ih hnd.2 h
      unfold VoteMap.get at this ⊢
      rw [List.find?_cons_of_neg _ (by simpa using hne)]
      exact this

theorem candidatesOf_nodup (dc : types.DposContext) (hC : CandidateTrieWF dc.candidateTrie) :
    (candidatesOf dc).Nodup := by
  unfold candidatesOf
  refine List.Nodup.map_on ?_ (List.Nodup.of_map _ hC.1)
  intro e he e1 he1 h
  have h2 : e.2 = e1.2 :=
    BytesToAddress_injOn _ _ (by rw [(hC.2 e he).2]; exact (hC.2 e he).1)
      (by rw [(hC.2 e1 he1).2]; exact (hC.2 e1 he1).1) h
  have h1 : e.1 = e1.1 := by rw [← (hC.2 e he).2, ← (hC.2 e1 he1).2, h2]
  exact Prod.ext h1 h2

theorem delegatorsOf_nodup (dc : types.DposContext) (hD : DelegateTrieWF dc.delegateTrie)
    (C : Address) : (delegatorsOf dc C).Nodup := by
  unfold delegatorsOf Trie.PrefixIterator
  refine List.Nodup.map_on ?_ ((List.Nodup.of_map _ hD.1).filter _)
  intro e he e1 he1 h
  rw [List.mem_filter] at he he1
  have hlen : ∀ x ∈ dc.delegateTrie, x.2.length = AddressLength := by
    intro x hx
    rw [(hD.2 x hx).2, List.length_drop, (hD.2 x hx).1]
    omega
  have hkey : ∀ x ∈ dc.delegateTrie, C.Bytes.isPrefixOf x.1 = true → x.1 = C.Bytes ++ x.2 := by
    intro x hx hp
    rw [List.isPrefixOf_iff_prefix, List.prefix_iff_eq_take] at hp
    have hC20 : C.Bytes.length = AddressLength := C.len
    rw [hC20] at hp
    rw [(hD.2 x hx).2]
    nth_rewrite 1 [← List.take_append_drop AddressLength x.1]
    rw [← hp]
  have h2 : e.2 = e1.2 := BytesToAddress_injOn _ _ (hlen e he.1) (hlen e1 he1.1) h
  have h1 : e.1 = e1.1 := by rw [hkey e he.1 he.2, hkey e1 he1.1 he1.2, h2]
  exact Prod.ext h1 h2

/-- C1 (weight conservation). For every state whose CandidateTrie and DelegateTrie
follow the data model and whose CandidateTrie is non-empty, `countVotes` returns no
error, the keys of the returned map are exactly the candidates of CandidateTrie (each
once), and the value of each candidate `C` is the sum of the current balances of the
delegators that have a DelegateTrie entry under the prefix `C`; a candidate with no
such entry is mapped to zero. -/
theorem countVotes_weight_conservation (ec : EpochContext)
    (hC : CandidateTrieWF ec.DposContext.candidateTrie)
    (hD : DelegateTrieWF ec.DposContext.delegateTrie)
    (hne : ec.DposContext.candidateTrie ≠ []) :
    ec.countVotes.2 = none ∧
    ec.countVotes.1.map Prod.fst = candidatesOf ec.DposContext ∧
    (candidatesOf ec.DposContext).Nodup ∧
    (∀ C ∈ candidatesOf ec.DposContext,
      ec.countVotes.1.get C = some ((delegatorsOf ec.DposContext C).toFinset.sum ec.statedb)) ∧
    (∀ C ∈ candidatesOf ec.DposContext, delegatorsOf ec.DposContext C = [] →
      ec.countVotes.1.get C = some 0) := by
  have hnd := candidatesOf_nodup ec.DposContext hC
  have hcv : ec.countVotes =
      (ec.DposContext.candidateTrie.map fun e =>
        (BytesToAddress e.2,
          ((ec.DposContext.delegateTrie.PrefixIterator e.2).map
            fun d => ec.statedb (BytesToAddress d.2)).sum), none) := by
    unfold EpochContext.countVotes Trie.NodeIterator
    cases hct : ec.DposContext.candidateTrie with
    | nil => exact absurd hct hne
    | cons c cs =>
      simp only []
      rw [countCandidates_eq _ _ _ _ (by rw [← hct]; exact hnd) (by simp)]
      simp
  have hkeys : ec.countVotes.1.map Prod.fst = candidatesOf ec.DposContext := by
    rw [hcv]
    simp [candidatesOf]
  have hval : ∀ C ∈ candidatesOf ec.DposContext,
      ec.countVotes.1.get C = some ((delegatorsOf ec.DposContext C).toFinset.sum ec.statedb) := by
    intro C hCmem
    obtain ⟨e, he, rfl⟩ := List.mem_map.1 hCmem
    apply VoteMap.get_of_mem _ _ _ (by rw [hkeys]; exact hnd)
    rw [hcv]
    refine List.mem_map.2 ⟨e, he, ?_⟩
    have hb : (BytesToAddress e.2).Bytes = e.2 :=
      BytesToAddress_bytes _ (by rw [(hC.2 e he).2]; exact (hC.2 e he).1)
    rw [List.sum_toFinset _ (delegatorsOf_nodup ec.DposContext hD _)]
    simp only [delegatorsOf, hb, List.map_map]
    rfl
  refine ⟨by rw [hcv], hkeys, hnd, hval, fun C hCmem hnone => ?_⟩
  rw [hval C hCmem, hnone]
  rfl

/-- C1 on the worked example: `0xa1…` has no delegator, `0xa2…` collects 5 + 7 and
`0xa3…` collects 12. -/
theorem countVotes_weight_conservation_witness :
    demoEc.countVotes.1 =
        [(addrOfByte 0xa1, 0), (addrOfByte 0xa2, 12), (addrOfByte 0xa3, 12)] ∧
      (demoEc.countVotes.2 = none ∧
      demoEc.countVotes.1.map Prod.fst = candidatesOf demoEc.DposContext ∧
      (candidatesOf demoEc.DposContext).Nodup ∧
      (∀ C ∈ candidatesOf demoEc.DposContext,
        demoEc.countVotes.1.get C
          = some ((delegatorsOf demoEc.DposContext C).toFinset.sum demoEc.statedb)) ∧
      (∀ C ∈ candidatesOf demoEc.DposContext, delegatorsOf demoEc.DposContext C = [] →
        demoEc.countVotes.1.get C = some 0)) :=
  ⟨by decide,
    countVotes_weight_conservation demoEc (by unfold CandidateTrieWF; decide)
      (by unfold DelegateTrieWF; decide) (by decide)⟩

/-! ## kickoutValidator: floor and order -/

theorem countUpTo_le (limit : Int) : ∀ (l : List (Bytes × Bytes)) (c : Int),
    countUpTo limit l c ≤ c + l.length
  | [], c => by simp [countUpTo]
  | _ :: rest, c => by
    unfold countUpTo
    split_ifs
    · simp only [List.length_cons, Nat.cast_add, Nat.cast_one]
      omega
    · have := countUpTo_le limit rest (c + 1)
      simp only [List.length_cons, Nat.cast_add, Nat.cast_one]
      omega

/-- The removal loop keeps the floor: when the running count does not exceed the
number of candidates left, the loop leaves at least `min(safeSize, before)` of them. -/
theorem kickoutLoop_floor (cfg : Config) (lib : Lib) (before : Nat)
    (hkick : ∀ dc a,
      dc.candidateTrie.length ≤ (lib.KickoutCandidate dc a).1.candidateTrie.length + 1) :
    ∀ (l : sortableAddresses) (c : Int) (dc : types.DposContext) (kicked : List Address),
      c ≤ dc.candidateTrie.length → min cfg.safeSize before ≤ dc.candidateTrie.length →
      min cfg.safeSize (before : Int)
        ≤ ((kickoutLoop cfg lib l c dc kicked).dc.candidateTrie.length : Int)
  | [], c, dc, kicked, _, h2 => by simpa [kickoutLoop] using h2
  | v :: rest, c, dc, kicked, h1, h2 => by
    unfold kickoutLoop
    by_cases hc : c ≤ cfg.safeSize
    · simpa [hc] using h2
    · rw [if_neg hc]
      have hk := hkick dc v.address
      have hlen : c - 1 ≤ ((lib.KickoutCandidate dc v.address).1.candidateTrie.length : Int) := by
        omega
      have hfloor : min cfg.safeSize (before : Int)
          ≤ ((lib.KickoutCandidate dc v.address).1.candidateTrie.length : Int) := by
        have : min cfg.safeSize (before : Int) ≤ cfg.safeSize := min_le_left _ _
        omega
      rcases hres : lib.KickoutCandidate dc v.address with ⟨dc1, err⟩
      rw [hres] at hlen hfloor
      cases err with
      | some e => simpa using hfloor
      | none => exact kickoutLoop_floor cfg lib before hkick rest (c - 1) dc1 _ hlen hfloor

/-- C4 (kick-out floor). When each `KickoutCandidate` call removes at most one
CandidateTrie entry, then after `kickoutValidator` returns, with or without an error,
CandidateTrie has at least `min(safeSize, number of entries before the call)` entries. -/
theorem kickoutValidator_floor (cfg : Config) (lib : Lib) (ec : EpochContext) (epoch : Int)
    (hkick : ∀ dc a,
      dc.candidateTrie.length ≤ (lib.KickoutCandidate dc a).1.candidateTrie.length + 1) :
    min cfg.safeSize (ec.DposContext.candidateTrie.length : Int)
      ≤ ((ec.kickoutValidator cfg lib epoch).1.DposContext.candidateTrie.length : Int) := by
  unfold EpochContext.kickoutValidator kickoutValidatorLog
  cases ec.DposContext.GetValidators with
  | error e => exact min_le_right _ _
  | ok validators =>
    simp only []
    split_ifs
    · exact min_le_right _ _
    · exact min_le_right _ _
    · apply kickoutLoop_floor cfg lib _ hkick
      · have := countUpTo_le
          (((needKickoutValidators cfg ec epoch validators).length : Int) + cfg.safeSize)
          ec.DposContext.candidateTrie.NodeIterator 0
        simpa [Trie.NodeIterator] using this
      · exact min_le_right _ _

theorem length_le_eraseP_add_one {α : Type} (p : α → Bool) :
    ∀ l : List α, l.length ≤ (l.eraseP p).length + 1
  | [] => by simp
  | a :: l => by
    rw [List.eraseP_cons]
    cases p a with
    | true => simp
    | false =>
      have := length_le_eraseP_add_one p l
      simp only [cond_false, List.length_cons]
      omega

/-- C4 on the worked example: three candidates, floor 2; one candidate is removed and
two are left. -/
theorem kickoutValidator_floor_witness :
    (demoEc.kickoutValidator smallCfg stdLib 1).1.DposContext.candidateTrie.length = 2 ∧
    min smallCfg.safeSize (demoEc.DposContext.candidateTrie.length : Int)
      ≤ ((demoEc.kickoutValidator smallCfg stdLib 1).1.DposContext.candidateTrie.length : Int) :=
  ⟨by decide,
    kickoutValidator_floor smallCfg stdLib demoEc 1
      (fun dc _ => length_le_eraseP_add_one _ dc.candidateTrie)⟩

/-- The addresses passed to `KickoutCandidate` are a leading part of the list the
removal loop runs over. -/
theorem kickoutLoop_kicked (cfg : Config) (lib : Lib) :
    ∀ (l : sortableAddresses) (c : Int) (dc : types.DposContext) (kicked : List Address),
      ∃ k, (kickoutLoop cfg lib l c dc kicked).kicked
        = kicked ++ (l.take k).map fun s => s.address
  | [], c, dc, kicked => ⟨0, by simp [kickoutLoop]⟩
  | v :: rest, c, dc, kicked => by
    unfold kickoutLoop
    by_cases hc : c ≤ cfg.safeSize
    · exact ⟨0, by simp [hc]⟩
    · rw [if_neg hc]
      rcases hres : lib.KickoutCandidate dc v.address with ⟨dc1, err⟩
      cases err with
      | some e => exact ⟨1, by simp⟩
      | none =>
        obtain ⟨k, hk⟩ := kickoutLoop_kicked cfg lib rest (c - 1) dc1 (kicked ++ [v.address])
        exact ⟨k + 1, by simp [hk]⟩

/-- C10 as stated fails. In the worked example with four candidates both marked
validators are removed, the one with 1 minted block before the one with 2: the order
is not largest count first. With three candidates the floor stops the loop after one
removal, and the marked validator left in CandidateTrie is the one with the larger
count. -/
theorem kickout_order_counterexample :
    (kickoutValidatorLog smallCfg stdLib demoEc4 1).kicked
        = [addrOfByte 0xa1, addrOfByte 0xa2] ∧
      mintCnt demoEc4 1 (addrOfByte 0xa1) = 1 ∧ mintCnt demoEc4 1 (addrOfByte 0xa2) = 2 ∧
      ¬ (kickoutValidatorLog smallCfg stdLib demoEc4 1).kicked.Pairwise
          (fun a b => mintCnt demoEc4 1 a ≥ mintCnt demoEc4 1 b) ∧
      needKickoutValidators smallCfg demoEc 1 [addrOfByte 0xa1, addrOfByte 0xa2, addrOfByte 0xa3]
        = [⟨addrOfByte 0xa1, 1⟩, ⟨addrOfByte 0xa2, 2⟩] ∧
      (kickoutValidatorLog smallCfg stdLib demoEc 1).kicked = [addrOfByte 0xa1] ∧
      (kickoutValidatorLog smallCfg stdLib demoEc 1).err = none ∧
      candidatesOf (kickoutValidatorLog smallCfg stdLib demoEc 1).dc
        = [addrOfByte 0xa2, addrOfByte 0xa3] := by
  refine ⟨?_, ?_, ?_, ?_, ?_, ?_, ?_, ?_⟩ <;> decide

/-- C10, amended. `kickoutValidator` runs its removal loop over the marked validators
sorted by `sort.Reverse` of the ordering: smallest mint count first, and among equal
counts the text that is not smaller first. The addresses passed to `KickoutCandidate`
are the first `k` of that sequence for some `k`, so each of them has a count no larger
than the count of any marked validator the loop did not reach. -/
theorem kickout_order_smallest_first (cfg : Config) (lib : Lib) (ec : EpochContext)
    (epoch : Int) (validators : List Address)
    (hv : ec.DposContext.GetValidators = .ok validators) :
    (lib.sorter.sort (Reverse (sortableAddresses.Less lib.str))
        (needKickoutValidators cfg ec epoch validators)).Perm
      (needKickoutValidators cfg ec epoch validators) ∧
    (lib.sorter.sort (Reverse (sortableAddresses.Less lib.str))
        (needKickoutValidators cfg ec epoch validators)).Pairwise
      (fun a b => a.weight < b.weight ∨
        (a.weight = b.weight ∧ strLess (lib.str a.address) (lib.str b.address) = false)) ∧
    ∃ k, (kickoutValidatorLog cfg lib ec epoch).kicked
        = ((lib.sorter.sort (Reverse (sortableAddresses.Less lib.str))
            (needKickoutValidators cfg ec epoch validators)).take k).map (fun s => s.address) ∧
      ∀ a ∈ (lib.sorter.sort (Reverse (sortableAddresses.Less lib.str))
            (needKickoutValidators cfg ec epoch validators)).take k,
        ∀ b ∈ (lib.sorter.sort (Reverse (sortableAddresses.Less lib.str))
            (needKickoutValidators cfg ec epoch validators)).drop k,
          a.weight ≤ b.weight := by
  have hsorted : (lib.sorter.sort (Reverse (sortableAddresses.Less lib.str))
        (needKickoutValidators cfg ec epoch validators)).Pairwise
      (fun a b => a.weight < b.weight ∨
        (a.weight = b.weight ∧ strLess (lib.str a.address) (lib.str b.address) = false)) := by
    refine (lib.sorter.sorted _ (Reverse_strictWeakOrder _ (Less_strictWeakOrder lib.str))
      _).imp ?_
    intro a b h
    exact (Less_eq_false_iff lib.str a b).1 h
  have hsplit : ∀ k, ∀ a ∈ (lib.sorter.sort (Reverse (sortableAddresses.Less lib.str))
            (needKickoutValidators cfg ec epoch validators)).take k,
        ∀ b ∈ (lib.sorter.sort (Reverse (sortableAddresses.Less lib.str))
            (needKickoutValidators cfg ec epoch validators)).drop k,
          a.weight ≤ b.weight := by
    intro k a ha b hb
    have h := hsorted
    rw [← List.take_append_drop k (lib.sorter.sort (Reverse (sortableAddresses.Less lib.str))
      (needKickoutValidators cfg ec epoch validators)), List.pairwise_append] at h
    rcases h.2.2 a ha b hb with h1 | ⟨h1, _⟩ <;> omega
  refine ⟨lib.sorter.perm _ _, hsorted, ?_⟩
  unfold kickoutValidatorLog
  simp only [hv]
  split_ifs
  · exact ⟨0, by simp, hsplit 0⟩
  · exact ⟨0, by simp, hsplit 0⟩
  · obtain ⟨k, hk⟩ := kickoutLoop_kicked cfg lib
      (lib.sorter.sort (Reverse (sortableAddresses.Less lib.str))
        (needKickoutValidators cfg ec epoch validators))
      (countUpTo (((needKickoutValidators cfg ec epoch validators).length : Int) + cfg.safeSize)
        ec.DposContext.candidateTrie.NodeIterator 0) ec.DposContext []
    exact ⟨k, by simpa using hk, hsplit k⟩

/-- C10 amended, on the worked example with four candidates: the validator with 1
minted block is removed before the one with 2. -/
theorem kickout_order_smallest_first_witness :
    (kickoutValidatorLog smallCfg stdLib demoEc4 1).kicked
        = [addrOfByte 0xa1, addrOfByte 0xa2] ∧
    (stdLib.sorter.sort (Reverse (sortableAddresses.Less stdLib.str))
        (needKickoutValidators smallCfg demoEc4 1
          [addrOfByte 0xa1, addrOfByte 0xa2, addrOfByte 0xa3])).Pairwise
      (fun a b => a.weight < b.weight ∨
        (a.weight = b.weight ∧
          strLess (stdLib.str a.address) (stdLib.str b.address) = false)) :=
  ⟨by decide,
    (kickout_order_smallest_first smallCfg stdLib demoEc4 1
      [addrOfByte 0xa1, addrOfByte 0xa2, addrOfByte 0xa3] rfl).2.1⟩

/-! ## tryElect: shuffle and rank -/

theorem set_perm_cons {α : Type} (x b : α) : ∀ (l : List α) (k : Nat),
    l[k]? = some b → (b :: l.set k x).Perm (x :: l)
  | [], k, h => by simp at h
  | y :: t, 0, h => by
    simp only [List.getElem?_cons_zero, Option.some.injEq] at h
    subst h
    exact List.Perm.swap x y t
  | y :: t, k + 1, h => by
    simp only [List.getElem?_cons_succ] at h
    simp only [List.set_cons_succ]
    exact (List.Perm.swap y b _).trans
      (((set_perm_cons x b t k h).cons y).trans (List.Perm.swap x y t))

theorem Swap_perm {α : Type} : ∀ (p : List α) (i j : Nat), (Swap p i j).Perm p
  | [], i, j => by simp [Swap]
  | y :: t, 0, 0 => by simp [Swap]
  | y :: t, 0, j + 1 => by
    unfold Swap
    simp only [List.getElem?_cons_zero, List.getElem?_cons_succ]
    cases h : t[j]? with
    | none => exact List.Perm.refl _
    | some b => exact set_perm_cons y b t j h
  | y :: t, i + 1, 0 => by
    unfold Swap
    simp only [List.getElem?_cons_zero, List.getElem?_cons_succ]
    cases h : t[i]? with
    | none => exact List.Perm.refl _
    | some a => exact set_perm_cons y a t i h
  | y :: t, i + 1, j + 1 => by
    have ih := Swap_perm t i j
    unfold Swap at ih ⊢
    simp only [List.getElem?_cons_succ]
    cases hi : t[i]? with
    | none => exact List.Perm.refl _
    | some a =>
      cases hj : t[j]? with
      | none => exact List.Perm.refl _
      | some b =>
        rw [hi, hj] at ih
        exact ih.cons y

/-- The shuffle only rearranges: whatever the generator draws, a shuffle that returns
holds the entries it was given. -/
theorem shuffle_perm (rand : RandImpl) : ∀ (i : Nat) (r : rand.Rand)
    (candidates shuffled : sortableAddresses),
    shuffle rand i r candidates = .ok shuffled → shuffled.Perm candidates
  | 0, r, candidates, shuffled, h => by
    simp only [shuffle, Except.ok.injEq] at h
    rw [h]
  | i + 1, r, candidates, shuffled, h => by
    unfold shuffle at h
    simp only [] at h
    split_ifs at h
    exact (shuffle_perm rand i _ _ shuffled h).trans (Swap_perm _ _ _)

/-- What a round installs when tally, rank and shuffle succeed: the map has no error,
it holds at least `safeSize` candidates, and the slate is a rearrangement of the first
`maxValidatorSize` of them in sorted order; nothing but EpochTrie changes. -/
theorem electFromVotes_ok (cfg : Config) (lib : Lib) (parent : types.Header) (i : Int)
    (ec ec1 : EpochContext) (h : electFromVotes cfg lib parent i ec = (ec1, none)) :
    ec.countVotes.2 = none ∧ cfg.safeSize ≤ (ec.countVotes.1.length : Int) ∧
    ∃ picked : sortableAddresses,
      picked.Perm ((lib.sorter.sort (sortableAddresses.Less lib.str)
        ((lib.rangeVotes i ec.countVotes.1).map fun e => ⟨e.1, e.2⟩)).take
          cfg.maxValidatorSize) ∧
      ec1 = ⟨ec.TimeStamp,
        ec.DposContext.SetEpochAndValidators (picked.map fun c => c.address), ec.statedb⟩ := by
  unfold electFromVotes at h
  rcases hcv : ec.countVotes with ⟨votes, err⟩
  rw [hcv] at h
  cases err with
  | some e => simp at h
  | none =>
    simp only [] at h
    show none = none ∧ cfg.safeSize ≤ (votes.length : Int) ∧
      ∃ picked : sortableAddresses,
        picked.Perm ((lib.sorter.sort (sortableAddresses.Less lib.str)
          ((lib.rangeVotes i votes).map fun e => ⟨e.1, e.2⟩)).take cfg.maxValidatorSize) ∧
        ec1 = ⟨ec.TimeStamp,
          ec.DposContext.SetEpochAndValidators (picked.map fun c => c.address), ec.statedb⟩
    split_ifs at h with hsafe hmax
    · simp at h
    · rcases hsh : shuffle lib.rand
          ((lib.sorter.sort (sortableAddresses.Less lib.str)
            ((lib.rangeVotes i votes).map fun e => ⟨e.1, e.2⟩)).take
              cfg.maxValidatorSize).length.pred
          (lib.rand.NewSource (shuffleSeed lib parent i))
          ((lib.sorter.sort (sortableAddresses.Less lib.str)
            ((lib.rangeVotes i votes).map fun e => ⟨e.1, e.2⟩)).take cfg.maxValidatorSize)
        with e | picked
      · simp only [Nat.pred_eq_sub_one] at hsh
        rw [hsh] at h
        simp at h
      · simp only [Nat.pred_eq_sub_one] at hsh
        rw [hsh] at h
        simp only [Prod.mk.injEq, and_true] at h
        refine ⟨rfl, ?_, picked, shuffle_perm _ _ _ _ _ hsh, h.symm⟩
        have := (lib.rangeVotes_perm i votes).length_eq
        simp only [List.length_map] at hsafe
        omega
    · rcases hsh : shuffle lib.rand
          ((lib.sorter.sort (sortableAddresses.Less lib.str)
            ((lib.rangeVotes i votes).map fun e => ⟨e.1, e.2⟩))).length.pred
          (lib.rand.NewSource (shuffleSeed lib parent i))
          (lib.sorter.sort (sortableAddresses.Less lib.str)
            ((lib.rangeVotes i votes).map fun e => ⟨e.1, e.2⟩))
        with e | picked
      · simp only [Nat.pred_eq_sub_one] at hsh
        rw [hsh] at h
        simp at h
      · simp only [Nat.pred_eq_sub_one] at hsh
        rw [hsh] at h
        simp only [Prod.mk.injEq, and_true] at h
        refine ⟨rfl, ?_, picked, ?_, h.symm⟩
        · have := (lib.rangeVotes_perm i votes).length_eq
          simp only [List.length_map] at hsafe
          omega
        · rw [List.take_of_length_le (Nat.le_of_not_gt hmax)]
          exact shuffle_perm _ _ _ _ _ hsh

theorem electRound_ok (cfg : Config) (lib : Lib) (parent : types.Header) (prevEpoch : Int)
    (prevEpochIsGenesis : Bool) (i : Int) (iter : List (Bytes × Nat)) (ec : EpochContext)
    (hok : (electRound cfg lib parent prevEpoch prevEpochIsGenesis i iter ec).err = none) :
    electFromVotes cfg lib parent i (tallyState cfg lib prevEpoch prevEpochIsGenesis iter ec)
      = ((electRound cfg lib parent prevEpoch prevEpochIsGenesis i iter ec).ec, none) := by
  unfold electRound tallyState at *
  by_cases hg : (kickoutGate prevEpochIsGenesis iter).1 = true
  · simp only [hg, if_true] at hok ⊢
    rcases hk : ec.kickoutValidator cfg lib prevEpoch with ⟨ec1, err⟩
    rw [hk] at hok
    cases err with
    | some e => simp at hok
    | none =>
      simp only [] at hok ⊢
      rw [← hok]
  · simp only [hg] at hok ⊢
    simp only [Bool.false_eq_true, if_false] at hok ⊢
    rw [← hok]

theorem VoteMap.mem_keys_set (votes : VoteMap) (k : Address) (v : Int) (a : Address)
    (h : a ∈ (votes.set k v).map Prod.fst) : a ∈ votes.map Prod.fst ∨ a = k := by
  induction votes with
  | nil =>
    simp only [VoteMap.set, List.map_cons, List.map_nil, List.mem_singleton] at h
    exact Or.inr h
  | cons e rest ih =>
    unfold VoteMap.set at h
    split_ifs at h with he
    · simp only [List.map_cons, List.mem_cons] at h ⊢
      rcases h with h | h
      · exact Or.inr h
      · exact Or.inl (Or.inr h)
    · simp only [List.map_cons, List.mem_cons] at h ⊢
      rcases h with h | h
      · exact Or.inl (Or.inl h)
      · rcases ih h with h1 | h1
        · exact Or.inl (Or.inr h1)
        · exact Or.inr h1

theorem countDelegators_keys (statedb : Address → Int) (C a : Address) :
    ∀ (ds : List (Bytes × Bytes)) (votes : VoteMap),
      a ∈ (countDelegators statedb C ds votes).map Prod.fst → a ∈ votes.map Prod.fst ∨ a = C
  | [], votes, h => Or.inl h
  | d :: ds, votes, h => by
    unfold countDelegators at h
    rcases countDelegators_keys statedb C a ds _ h with h1 | h1
    · exact VoteMap.mem_keys_set _ _ _ _ h1
    · exact Or.inr h1

theorem countCandidates_keys (delegateTrie : Trie Bytes) (statedb : Address → Int) (a : Address) :
    ∀ (cs : List (Bytes × Bytes)) (votes : VoteMap),
      a ∈ (countCandidates delegateTrie statedb cs votes).map Prod.fst →
        a ∈ votes.map Prod.fst ∨ a ∈ cs.map fun e => BytesToAddress e.2
  | [], votes, h => Or.inl h
  | c :: cs, votes, h => by
    rw [countCandidates] at h
    simp only [List.map_cons, List.mem_cons]
    cases hds : delegateTrie.PrefixIterator c.2 with
    | nil =>
      rw [hds] at h
      rcases countCandidates_keys delegateTrie statedb a cs _ h with h1 | h1
      · rcases VoteMap.mem_keys_set _ _ _ _ h1 with h2 | h2
        · exact Or.inl h2
        · exact Or.inr (Or.inl h2)
      · exact Or.inr (Or.inr h1)
    | cons d ds =>
      rw [hds] at h
      rcases countCandidates_keys delegateTrie statedb a cs _ h with h1 | h1
      · rcases countDelegators_keys _ _ _ _ _ h1 with h2 | h2
        · exact Or.inl h2
        · exact Or.inr (Or.inl h2)
      · exact Or.inr (Or.inr h1)

/-- Every key of the map `countVotes` returns is a candidate of CandidateTrie. -/
theorem countVotes_keys_subset (ec : EpochContext) (a : Address)
    (h : a ∈ ec.countVotes.1.map Prod.fst) : a ∈ candidatesOf ec.DposContext := by
  unfold EpochContext.countVotes Trie.NodeIterator at h
  cases hct : ec.DposContext.candidateTrie with
  | nil =>
    rw [hct] at h
    simp at h
  | cons c cs =>
    rw [hct] at h
    rcases countCandidates_keys _ _ a _ _ h with h1 | h1
    · simp at h1
    · unfold candidatesOf
      rw [hct]
      exact h1

/-! ## tryElect: the claims -/

/-- C2 (election picks the top-N). With an injective textual form of addresses, in every
round of `tryElect` that succeeds the installed slate has the same multiset of
addresses as the first `min(n, maxValidatorSize)` entries of the tallied candidates
sorted by descending weight, ties by ascending text (`n` the number of tallied
candidates), for every implementation of `sort.Sort`, every enumeration order of the
vote map and every sequence of values of the random generator. -/
theorem election_picks_top_N (cfg : Config) (lib : Lib) (parent : types.Header)
    (prevEpoch : Int) (prevEpochIsGenesis : Bool) (i : Int) (iter : List (Bytes × Nat))
    (ec : EpochContext) (hstr : Function.Injective lib.str)
    (hok : (electRound cfg lib parent prevEpoch prevEpochIsGenesis i iter ec).err = none) :
    ∃ slate : List Address,
      (electRound cfg lib parent prevEpoch prevEpochIsGenesis i iter ec).ec.DposContext.GetValidators
        = .ok slate ∧
      ∀ ranked : sortableAddresses,
        ranked.Perm (talliedCandidates (tallyState cfg lib prevEpoch prevEpochIsGenesis iter ec)) →
        ranked.Pairwise (fun a b => b.weight < a.weight ∨
          (b.weight = a.weight ∧ strLess (lib.str b.address) (lib.str a.address) = false)) →
        slate.Perm
          ((ranked.take (min ranked.length cfg.maxValidatorSize)).map fun c => c.address) := by
  obtain ⟨_, _, picked, hperm, hec⟩ := electFromVotes_ok cfg lib parent i _ _
    (electRound_ok cfg lib parent prevEpoch prevEpochIsGenesis i iter ec hok)
  refine ⟨picked.map fun c => c.address, by rw [hec]; rfl, fun ranked hr hs => ?_⟩
  have hs1 : ranked.Pairwise fun a b => sortableAddresses.Less lib.str b a = false :=
    hs.imp fun {a b} h => (Less_eq_false_iff lib.str b a).2 h
  have heq : lib.sorter.sort (sortableAddresses.Less lib.str)
      ((lib.rangeVotes i
        (tallyState cfg lib prevEpoch prevEpochIsGenesis iter ec).countVotes.1).map
          fun e => ⟨e.1, e.2⟩) = ranked := by
    refine sorted_perm_unique lib.str hstr _ _ ?_
      (lib.sorter.sorted _ (Less_strictWeakOrder lib.str) _) hs1
    exact ((lib.sorter.perm _ _).trans ((lib.rangeVotes_perm i _).map _)).trans hr.symm
  rw [heq] at hperm
  have htake : ranked.take (min ranked.length cfg.maxValidatorSize)
      = ranked.take cfg.maxValidatorSize := by
    rcases Nat.le_total ranked.length cfg.maxValidatorSize with h | h
    · rw [min_eq_left h, List.take_of_length_le h, List.take_of_length_le (le_refl _)]
    · rw [min_eq_right h]
  rw [htake]
  exact hperm.map _

/-- C2 on the worked example: after the kick-out of `0xa1…` the tally is
`0xa2… : 12, 0xa3… : 12`, and the installed slate holds these two. -/
theorem election_picks_top_N_witness :
    (electRound smallCfg stdLib demoParent 1 false 1 demoIter demoEc).ec.DposContext.epochTrie
        = some [addrOfByte 0xa2, addrOfByte 0xa3] ∧
    talliedCandidates (tallyState smallCfg stdLib 1 false demoIter demoEc)
        = [⟨addrOfByte 0xa2, 12⟩, ⟨addrOfByte 0xa3, 12⟩] ∧
    ∃ slate : List Address,
      (electRound smallCfg stdLib demoParent 1 false 1 demoIter demoEc).ec.DposContext.GetValidators
        = .ok slate ∧
      ∀ ranked : sortableAddresses,
        ranked.Perm (talliedCandidates (tallyState smallCfg stdLib 1 false demoIter demoEc)) →
        ranked.Pairwise (fun a b => b.weight < a.weight ∨
          (b.weight = a.weight ∧
            strLess (stdLib.str b.address) (stdLib.str a.address) = false)) →
        slate.Perm
          ((ranked.take (min ranked.length smallCfg.maxValidatorSize)).map fun c => c.address) :=
  ⟨by decide, by decide,
    election_picks_top_N smallCfg stdLib demoParent 1 false 1 demoIter demoEc Hex_injective
      (by decide)⟩

/-- C8 (election invariant). After every round of `tryElect` that succeeds, the
installed slate has at most `maxValidatorSize` members and every member is a candidate
of CandidateTrie as it stands at that moment, after any kick-out of the round. -/
theorem election_slate_invariant (cfg : Config) (lib : Lib) (parent : types.Header)
    (prevEpoch : Int) (prevEpochIsGenesis : Bool) (i : Int) (iter : List (Bytes × Nat))
    (ec : EpochContext)
    (hok : (electRound cfg lib parent prevEpoch prevEpochIsGenesis i iter ec).err = none) :
    ∃ slate : List Address,
      (electRound cfg lib parent prevEpoch prevEpochIsGenesis i iter ec).ec.DposContext.GetValidators
        = .ok slate ∧
      slate.length ≤ cfg.maxValidatorSize ∧
      ∀ a ∈ slate, a ∈ candidatesOf
        (electRound cfg lib parent prevEpoch prevEpochIsGenesis i iter ec).ec.DposContext := by
  obtain ⟨_, _, picked, hperm, hec⟩ := electFromVotes_ok cfg lib parent i _ _
    (electRound_ok cfg lib parent prevEpoch prevEpochIsGenesis i iter ec hok)
  refine ⟨picked.map fun c => c.address, by rw [hec]; rfl, ?_, fun a ha => ?_⟩
  · rw [List.length_map, hperm.length_eq]
    exact List.length_take_le _ _
  · obtain ⟨c, hc, rfl⟩ := List.mem_map.1 ha
    have h1 := List.mem_of_mem_take (hperm.subset hc)
    have h2 := (lib.sorter.perm _ _).subset h1
    obtain ⟨e, he, rfl⟩ := List.mem_map.1 h2
    have h3 := (lib.rangeVotes_perm i _).subset he
    have h4 := countVotes_keys_subset _ e.1 (List.mem_map.2 ⟨e, h3, rfl⟩)
    rw [hec]
    exact h4

/-- C8 on the worked example: the slate `[0xa2…, 0xa3…]` has two members, at most
`maxValidatorSize = 3`, and CandidateTrie then holds exactly these two candidates. -/
theorem election_slate_invariant_witness :
    candidatesOf (electRound smallCfg stdLib demoParent 1 false 1 demoIter demoEc).ec.DposContext
        = [addrOfByte 0xa2, addrOfByte 0xa3] ∧
    ∃ slate : List Address,
      (electRound smallCfg stdLib demoParent 1 false 1 demoIter demoEc).ec.DposContext.GetValidators
        = .ok slate ∧
      slate.length ≤ smallCfg.maxValidatorSize ∧
      ∀ a ∈ slate, a ∈ candidatesOf
        (electRound smallCfg stdLib demoParent 1 false 1 demoIter demoEc).ec.DposContext :=
  ⟨by decide,
    election_slate_invariant smallCfg stdLib demoParent 1 false 1 demoIter demoEc (by decide)⟩

/-! ## tryElect: determinism -/

/-- Two implementations of `sort.Sort` agree on rearrangements of the same entries
when entries that are not `less` either way are equal. -/
theorem sort_agree (S1 S2 : SortImpl) (less : sortableAddress → sortableAddress → Bool)
    (hswo : StrictWeakOrder less)
    (hanti : ∀ a b, less b a = false → less a b = false → a = b)
    (p q : sortableAddresses) (hpq : p.Perm q) : S1.sort less p = S2.sort less q := by
  have hA : IsAntisymm sortableAddress fun a b => less b a = false := ⟨hanti⟩
  exact List.eq_of_perm_of_sorted (((S1.perm less p).trans hpq).trans (S2.perm less q).symm)
    (S1.sorted less hswo p) (S2.sorted less hswo q)

theorem kickoutLoop_congr (cfg : Config) (str : Address → GoString) (S1 S2 : SortImpl)
    (rand : RandImpl) (kec : Bytes → Bytes)
    (kick : types.DposContext → Address → types.DposContext × Option Err)
    (R1 R2 : Int → VoteMap → List (Address × Int))
    (p1 : ∀ i votes, (R1 i votes).Perm votes) (p2 : ∀ i votes, (R2 i votes).Perm votes) :
    ∀ (l : sortableAddresses) (c : Int) (dc : types.DposContext) (kicked : List Address),
      kickoutLoop cfg ⟨str, S1, rand, kec, kick, R1, p1⟩ l c dc kicked
        = kickoutLoop cfg ⟨str, S2, rand, kec, kick, R2, p2⟩ l c dc kicked
  | [], c, dc, kicked => by simp [kickoutLoop]
  | v :: rest, c, dc, kicked => by
    unfold kickoutLoop
    by_cases hc : c ≤ cfg.safeSize
    · simp [hc]
    · simp only [hc, if_false]
      rcases kick dc v.address with ⟨dc1, err⟩
      cases err with
      | some e => rfl
      | none => exact kickoutLoop_congr cfg str S1 S2 rand kec kick R1 R2 p1 p2 rest _ dc1 _

theorem kickoutValidator_congr (cfg : Config) (str : Address → GoString)
    (hstr : Function.Injective str) (S1 S2 : SortImpl)
    (rand : RandImpl) (kec : Bytes → Bytes)
    (kick : types.DposContext → Address → types.DposContext × Option Err)
    (R1 R2 : Int → VoteMap → List (Address × Int))
    (p1 : ∀ i votes, (R1 i votes).Perm votes) (p2 : ∀ i votes, (R2 i votes).Perm votes)
    (ec : EpochContext) (epoch : Int) :
    ec.kickoutValidator cfg ⟨str, S1, rand, kec, kick, R1, p1⟩ epoch
      = ec.kickoutValidator cfg ⟨str, S2, rand, kec, kick, R2, p2⟩ epoch := by
  have hsort : ∀ l : sortableAddresses,
      S1.sort (Reverse (sortableAddresses.Less str)) l
        = S2.sort (Reverse (sortableAddresses.Less str)) l := fun l =>
    sort_agree S1 S2 _ (Reverse_strictWeakOrder _ (Less_strictWeakOrder str))
      (fun a b hab hba => Less_antisymm str hstr a b hba hab) l l (List.Perm.refl l)
  unfold EpochContext.kickoutValidator kickoutValidatorLog
  cases ec.DposContext.GetValidators with
  | error e => rfl
  | ok validators =>
    simp only []
    split_ifs
    · rfl
    · rfl
    · rw [hsort, kickoutLoop_congr cfg str S1 S2 rand kec kick R1 R2 p1 p2]

theorem electFromVotes_congr (cfg : Config) (str : Address → GoString)
    (hstr : Function.Injective str) (S1 S2 : SortImpl)
    (rand : RandImpl) (kec : Bytes → Bytes)
    (kick : types.DposContext → Address → types.DposContext × Option Err)
    (R1 R2 : Int → VoteMap → List (Address × Int))
    (p1 : ∀ i votes, (R1 i votes).Perm votes) (p2 : ∀ i votes, (R2 i votes).Perm votes)
    (parent : types.Header) (i : Int) (ec : EpochContext) :
    electFromVotes cfg ⟨str, S1, rand, kec, kick, R1, p1⟩ parent i ec
      = electFromVotes cfg ⟨str, S2, rand, kec, kick, R2, p2⟩ parent i ec := by
  have hperm : ∀ votes : VoteMap,
      ((R1 i votes).map fun e => (⟨e.1, e.2⟩ : sortableAddress)).Perm
        ((R2 i votes).map fun e => (⟨e.1, e.2⟩ : sortableAddress)) := fun votes =>
    (((p1 i votes).trans (p2 i votes).symm).map _)
  have hsort : ∀ votes : VoteMap,
      S1.sort (sortableAddresses.Less str)
          ((R1 i votes).map fun e => (⟨e.1, e.2⟩ : sortableAddress))
        = S2.sort (sortableAddresses.Less str)
          ((R2 i votes).map fun e => (⟨e.1, e.2⟩ : sortableAddress)) := fun votes =>
    sort_agree S1 S2 _ (Less_strictWeakOrder str)
      (fun a b hab hba => Less_antisymm str hstr a b hab hba) _ _ (hperm votes)
  have hlen : ∀ votes : VoteMap,
      ((R1 i votes).map fun e => (⟨e.1, e.2⟩ : sortableAddress)).length
        = ((R2 i votes).map fun e => (⟨e.1, e.2⟩ : sortableAddress)).length := fun votes =>
    (hperm votes).length_eq
  unfold electFromVotes
  rcases ec.countVotes with ⟨votes, err⟩
  cases err with
  | some e => rfl
  | none =>
    simp only [hsort votes, hlen votes]
    rfl

theorem electRound_congr (cfg : Config) (str : Address → GoString)
    (hstr : Function.Injective str) (S1 S2 : SortImpl)
    (rand : RandImpl) (kec : Bytes → Bytes)
    (kick : types.DposContext → Address → types.DposContext × Option Err)
    (R1 R2 : Int → VoteMap → List (Address × Int))
    (p1 : ∀ i votes, (R1 i votes).Perm votes) (p2 : ∀ i votes, (R2 i votes).Perm votes)
    (parent : types.Header) (prevEpoch : Int) (prevEpochIsGenesis : Bool) (i : Int)
    (iter : List (Bytes × Nat)) (ec : EpochContext) :
    electRound cfg ⟨str, S1, rand, kec, kick, R1, p1⟩ parent prevEpoch prevEpochIsGenesis i
        iter ec
      = electRound cfg ⟨str, S2, rand, kec, kick, R2, p2⟩ parent prevEpoch prevEpochIsGenesis i
        iter ec := by
  unfold electRound
  simp only [kickoutValidator_congr cfg str hstr S1 S2 rand kec kick R1 R2 p1 p2,
    electFromVotes_congr cfg str hstr S1 S2 rand kec kick R1 R2 p1 p2]

theorem electLoop_congr (cfg : Config) (str : Address → GoString)
    (hstr : Function.Injective str) (S1 S2 : SortImpl)
    (rand : RandImpl) (kec : Bytes → Bytes)
    (kick : types.DposContext → Address → types.DposContext × Option Err)
    (R1 R2 : Int → VoteMap → List (Address × Int))
    (p1 : ∀ i votes, (R1 i votes).Perm votes) (p2 : ∀ i votes, (R2 i votes).Perm votes)
    (parent : types.Header) (prevEpoch : Int) (prevEpochIsGenesis : Bool) :
    ∀ (n : Nat) (i : Int) (iter : List (Bytes × Nat)) (ec : EpochContext),
      electLoop cfg ⟨str, S1, rand, kec, kick, R1, p1⟩ parent prevEpoch prevEpochIsGenesis n i
          iter ec
        = electLoop cfg ⟨str, S2, rand, kec, kick, R2, p2⟩ parent prevEpoch prevEpochIsGenesis
          n i iter ec
  | 0, _, _, _ => rfl
  | n + 1, i, iter, ec => by
    unfold electLoop
    rw [electRound_congr cfg str hstr S1 S2 rand kec kick R1 R2 p1 p2]
    rcases electRound cfg ⟨str, S2, rand, kec, kick, R2, p2⟩ parent prevEpoch
      prevEpochIsGenesis i iter ec with ⟨ec1, iter1, err⟩
    cases err with
    | some e => rfl
    | none =>
      exact electLoop_congr cfg str hstr S1 S2 rand kec kick R1 R2 p1 p2 parent prevEpoch
        prevEpochIsGenesis n (i + 1) iter1 ec1

/-- C3 (determinism). With an injective textual form of addresses, two evaluations of
`tryElect` on the same genesis, parent, TimeStamp, DposContext and state leave the same
context (the same validator slate) and the same error, even when they differ in the
implementation of `sort.Sort` and in the order in which each round enumerates the vote
map; the generator, the digest and `KickoutCandidate` are the same in both. -/
theorem tryElect_deterministic (cfg : Config) (lib1 lib2 : Lib) (ec : EpochContext)
    (genesis parent : types.Header) (hstr : Function.Injective lib1.str)
    (h1 : lib1.str = lib2.str) (h2 : lib1.rand = lib2.rand)
    (h3 : lib1.Keccak512 = lib2.Keccak512)
    (h4 : lib1.KickoutCandidate = lib2.KickoutCandidate) :
    ec.tryElect cfg lib1 genesis parent = ec.tryElect cfg lib2 genesis parent := by
  obtain ⟨str, S1, rand, kec, kick, R1, p1⟩ := lib1
  obtain ⟨str2, S2, rand2, kec2, kick2, R2, p2⟩ := lib2
  simp only at h1 h2 h3 h4 hstr
  subst h1 h2 h3 h4
  unfold EpochContext.tryElect
  exact electLoop_congr cfg str hstr S1 S2 rand kec kick R1 R2 p1 p2 parent _ _ _ _ _ _

/-- C3 on the worked example: enumerating the vote map in insertion order or in the
opposite order installs the same slate, `[0xa2…, 0xa3…]`. -/
theorem tryElect_deterministic_witness :
    (demoEc.tryElect smallCfg stdLib demoGenesis demoParent).1.DposContext.epochTrie
        = some [addrOfByte 0xa2, addrOfByte 0xa3] ∧
    (demoEc.tryElect smallCfg stdLib demoGenesis demoParent).2 = none ∧
    demoEc.tryElect smallCfg stdLib demoGenesis demoParent
      = demoEc.tryElect smallCfg stdLibReversed demoGenesis demoParent :=
  ⟨by decide, by decide,
    tryElect_deterministic smallCfg stdLib stdLibReversed demoEc demoGenesis demoParent
      Hex_injective rfl rfl rfl rfl⟩

/-! ## countVotes: the empty CandidateTrie -/

/-- When `countVotes` returns the NoCandidates error, and what it returns then. -/
theorem countVotes_error_cases (ec : EpochContext) :
    (ec.countVotes.2 = some .noCandidates ↔ ec.DposContext.candidateTrie = []) ∧
    (ec.DposContext.candidateTrie = [] → ec.countVotes.1 = []) ∧
    (ec.DposContext.candidateTrie ≠ [] → ec.countVotes.2 = none) := by
  unfold EpochContext.countVotes Trie.NodeIterator
  cases ec.DposContext.candidateTrie with
  | nil => simp
  | cons c cs => simp

/-- C15 (no candidates). `countVotes` fails with the NoCandidates error exactly when
CandidateTrie has no entry, in that case the returned map is empty, and in the other
case it returns no error. -/
theorem countVotes_noCandidates_iff (ec : EpochContext) :
    (ec.countVotes.2 = some .noCandidates ↔ ec.DposContext.candidateTrie = []) ∧
    (ec.DposContext.candidateTrie = [] → ec.countVotes.1 = []) ∧
    (ec.DposContext.candidateTrie ≠ [] → ec.countVotes.2 = none) := by
  unfold EpochContext.countVotes Trie.NodeIterator
  cases hct : ec.DposContext.candidateTrie with
  | nil =>
    refine ⟨⟨fun _ => rfl, fun _ => rfl⟩, fun _ => rfl, fun h => absurd rfl h⟩
  | cons c cs =>
    refine ⟨⟨fun h => ?_, fun h => ?_⟩, fun h => ?_, fun _ => rfl⟩
    · exact Option.noConfusion h
    · exact List.noConfusion h
    · exact List.noConfusion h

/-! ## tryElect: the slate has no duplicates -/

theorem VoteMap.keys_set_nodup (votes : VoteMap) (k : Address) (v : Int)
    (h : (votes.map Prod.fst).Nodup) : ((votes.set k v).map Prod.fst).Nodup := by
  induction votes with
  | nil => simp [VoteMap.set]
  | cons e rest ih =>
    simp only [List.map_cons, List.nodup_cons] at h
    unfold VoteMap.set
    split_ifs with he
    · simp only [List.map_cons, List.nodup_cons]
      rw [← he]
      exact h
    · simp only [List.map_cons, List.nodup_cons]
      refine ⟨fun hmem => ?_, ih h.2⟩
      rcases VoteMap.mem_keys_set rest k v e.1 hmem with h1 | h1
      · exact h.1 h1
      · exact he h1

theorem countDelegators_nodup (statedb : Address → Int) (C : Address) :
    ∀ (ds : List (Bytes × Bytes)) (votes : VoteMap),
      (votes.map Prod.fst).Nodup → ((countDelegators statedb C ds votes).map Prod.fst).Nodup
  | [], _, h => h
  | _ :: ds, votes, h => by
    unfold countDelegators
    exact countDelegators_nodup statedb C ds _ (VoteMap.keys_set_nodup votes _ _ h)

theorem countCandidates_nodup (delegateTrie : Trie Bytes) (statedb : Address → Int) :
    ∀ (cs : List (Bytes × Bytes)) (votes : VoteMap),
      (votes.map Prod.fst).Nodup →
        ((countCandidates delegateTrie statedb cs votes).map Prod.fst).Nodup
  | [], _, h => h
  | c :: cs, votes, h => by
    rw [countCandidates]
    cases hds : delegateTrie.PrefixIterator c.2 with
    | nil =>
      exact countCandidates_nodup delegateTrie statedb cs _ (VoteMap.keys_set_nodup votes _ _ h)
    | cons d ds =>
      exact countCandidates_nodup delegateTrie statedb cs _
        (countDelegators_nodup statedb _ (d :: ds) votes h)

/-- The map `countVotes` returns has one entry per key, for every state. -/
theorem countVotes_keys_nodup (ec : EpochContext) : (ec.countVotes.1.map Prod.fst).Nodup := by
  unfold EpochContext.countVotes Trie.NodeIterator
  cases ec.DposContext.candidateTrie with
  | nil => simp
  | cons c cs => exact countCandidates_nodup _ _ _ _ (by simp)

/-- C20 (no duplicate validators). After every round of `tryElect` that succeeds, the
installed slate holds no address more than once, its length is exactly
`min(n, maxValidatorSize)` with `n` the number of candidates tallied by `countVotes`,
and so it is at least `min(safeSize, maxValidatorSize)`. -/
theorem election_slate_nodup (cfg : Config) (lib : Lib) (parent : types.Header)
    (prevEpoch : Int) (prevEpochIsGenesis : Bool) (i : Int) (iter : List (Bytes × Nat))
    (ec : EpochContext)
    (hok : (electRound cfg lib parent prevEpoch prevEpochIsGenesis i iter ec).err = none) :
    ∃ slate : List Address,
      (electRound cfg lib parent prevEpoch prevEpochIsGenesis i iter ec).ec.DposContext.GetValidators
        = .ok slate ∧
      slate.Nodup ∧
      slate.length
        = min (tallyState cfg lib prevEpoch prevEpochIsGenesis iter ec).countVotes.1.length
            cfg.maxValidatorSize ∧
      min cfg.safeSize (cfg.maxValidatorSize : Int) ≤ (slate.length : Int) := by
  obtain ⟨_, hsafe, picked, hperm, hec⟩ := electFromVotes_ok cfg lib parent i _ _
    (electRound_ok cfg lib parent prevEpoch prevEpochIsGenesis i iter ec hok)
  have hsorted := (lib.sorter.perm (sortableAddresses.Less lib.str)
    ((lib.rangeVotes i
      (tallyState cfg lib prevEpoch prevEpochIsGenesis iter ec).countVotes.1).map
        fun e => (⟨e.1, e.2⟩ : sortableAddress))).trans ((lib.rangeVotes_perm i _).map _)
  have hlen : picked.length
      = min (tallyState cfg lib prevEpoch prevEpochIsGenesis iter ec).countVotes.1.length
          cfg.maxValidatorSize := by
    rw [hperm.length_eq, List.length_take, hsorted.length_eq, List.length_map, min_comm]
  refine ⟨picked.map fun c => c.address, by rw [hec]; rfl, ?_, by rw [List.length_map, hlen],
    ?_⟩
  · have hkeys : ((lib.sorter.sort (sortableAddresses.Less lib.str)
        ((lib.rangeVotes i
          (tallyState cfg lib prevEpoch prevEpochIsGenesis iter ec).countVotes.1).map
            fun e => (⟨e.1, e.2⟩ : sortableAddress))).map fun c => c.address).Nodup := by
      rw [(hsorted.map _).nodup_iff, List.map_map]
      exact countVotes_keys_nodup _
    rw [(hperm.map _).nodup_iff]
    exact List.Nodup.sublist ((List.take_sublist _ _).map _) hkeys
  · rw [List.length_map, hlen]
    rcases Nat.le_total
      (tallyState cfg lib prevEpoch prevEpochIsGenesis iter ec).countVotes.1.length
      cfg.maxValidatorSize with h | h
    · rw [min_eq_left h]
      exact le_trans (min_le_left _ _) hsafe
    · rw [min_eq_right h]
      exact min_le_right _ _

/-- C20 on the worked example: two candidates are tallied and the slate holds both. -/
theorem election_slate_nodup_witness :
    (tallyState smallCfg stdLib 1 false demoIter demoEc).countVotes.1.length = 2 ∧
    ∃ slate : List Address,
      (electRound smallCfg stdLib demoParent 1 false 1 demoIter demoEc).ec.DposContext.GetValidators
        = .ok slate ∧
      slate.Nodup ∧
      slate.length
        = min (tallyState smallCfg stdLib 1 false demoIter demoEc).countVotes.1.length
            smallCfg.maxValidatorSize ∧
      min smallCfg.safeSize (smallCfg.maxValidatorSize : Int) ≤ (slate.length : Int) :=
  ⟨by decide,
    election_slate_nodup smallCfg stdLib demoParent 1 false 1 demoIter demoEc (by decide)⟩

/-! ## lookupValidator: alignment and index range -/

theorem lookupValidator_rejects (cfg : Config) (ec : EpochContext) (now : Int)
    (h : (now.tmod cfg.epochInterval).tmod cfg.blockInterval ≠ 0) :
    ec.lookupValidator cfg now = .error .ErrInvalidMintBlockTime := by
  unfold EpochContext.lookupValidator
  simp [h]

theorem dvd_of_aligned (cfg : Config) (now : Int)
    (hdvd : cfg.blockInterval ∣ cfg.epochInterval)
    (h : (now.tmod cfg.epochInterval).tmod cfg.blockInterval = 0) :
    cfg.blockInterval ∣ now := by
  have h1 : cfg.blockInterval ∣ now.tmod cfg.epochInterval := Int.dvd_of_tmod_eq_zero h
  have h2 := Int.tmod_add_tdiv now cfg.epochInterval
  rw [← h2]
  exact dvd_add h1 (Dvd.dvd.mul_right hdvd _)

/-- C13 (mint-time validity). When `blockInterval` divides `epochInterval`, as 10
divides 86400, every timestamp `now` that `lookupValidator` does not reject with
InvalidMintTime is a multiple of `blockInterval`; every `now` with
`(now mod epochInterval) mod blockInterval ≠ 0`, with the remainders of Go or with the
mathematical ones, is rejected with InvalidMintTime; and with `epochInterval = 86400`,
`blockInterval = 10` and `now = 35` the result is InvalidMintTime. -/
theorem lookupValidator_mint_time (cfg : Config) (ec : EpochContext) (now : Int)
    (hdvd : cfg.blockInterval ∣ cfg.epochInterval) :
    (ec.lookupValidator cfg now ≠ .error .ErrInvalidMintBlockTime →
      now % cfg.blockInterval = 0 ∧ now.tmod cfg.blockInterval = 0) ∧
    ((now.tmod cfg.epochInterval).tmod cfg.blockInterval ≠ 0 →
      ec.lookupValidator cfg now = .error .ErrInvalidMintBlockTime) ∧
    (now % cfg.epochInterval % cfg.blockInterval ≠ 0 →
      ec.lookupValidator cfg now = .error .ErrInvalidMintBlockTime) ∧
    (cfg.epochInterval = 86400 → cfg.blockInterval = 10 →
      ec.lookupValidator cfg 35 = .error .ErrInvalidMintBlockTime) := by
  refine ⟨fun h => ?_, lookupValidator_rejects cfg ec now, fun h => ?_, fun hE hB => ?_⟩
  · have h0 : (now.tmod cfg.epochInterval).tmod cfg.blockInterval = 0 := by
      by_contra hne
      exact h (lookupValidator_rejects cfg ec now hne)
    have hd := dvd_of_aligned cfg now hdvd h0
    exact ⟨Int.emod_eq_zero_of_dvd hd, Int.tmod_eq_zero_of_dvd hd⟩
  · apply lookupValidator_rejects
    intro h0
    apply h
    rw [Int.emod_emod_of_dvd _ hdvd]
    exact Int.emod_eq_zero_of_dvd (dvd_of_aligned cfg now hdvd h0)
  · apply lookupValidator_rejects
    rw [hE, hB]
    decide

/-- C13 with the constants of the scenarios: `now = 35` is rejected, and `now = 40`,
which is not rejected, is a multiple of 10. -/
theorem lookupValidator_mint_time_witness :
    slotEc.lookupValidator scenarioCfg 35 = .error .ErrInvalidMintBlockTime ∧
    slotEc.lookupValidator scenarioCfg 40 = .ok (addrOfByte 2) ∧
    (40 : Int) % scenarioCfg.blockInterval = 0 ∧ (40 : Int).tmod scenarioCfg.blockInterval = 0 :=
  ⟨(lookupValidator_mint_time scenarioCfg slotEc 35 (by decide)).2.2.2 rfl rfl, rfl,
    (lookupValidator_mint_time scenarioCfg slotEc 40 (by decide)).1
      (fun h => Except.noConfusion
        ((rfl : slotEc.lookupValidator scenarioCfg 40 = .ok (addrOfByte 2)).symm.trans h))⟩

/-- C19 as stated fails. On the slate of three, `now = -10` passes the alignment test
(the Go remainder of -10 by 10 is 0), the computed index is -1, and indexing the slate
panics: the call returns neither an error nor an address. -/
theorem lookupValidator_negative_counterexample :
    slotEc.DposContext.GetValidators = .ok [addrOfByte 1, addrOfByte 2, addrOfByte 3] ∧
    (((-10 : Int).tmod scenarioCfg.epochInterval).tmod scenarioCfg.blockInterval = 0) ∧
    (((-10 : Int).tmod scenarioCfg.epochInterval).tdiv scenarioCfg.blockInterval).tmod 3 = -1 ∧
    slotEc.lookupValidator scenarioCfg (-10) = .error .panicIndexOutOfRange :=
  ⟨rfl, by decide, by decide, rfl⟩

/-- C19, amended. With positive intervals, for every non-negative timestamp `now` and
every non-empty slate, the index `lookupValidator` computes,
`((now % epochInterval) / blockInterval) % len(validators)` in Go arithmetic, lies in
`[0, len(validators))`, and the call returns either the InvalidMintTime error or an
address that is a member of the slate. -/
theorem lookupValidator_index_in_range (cfg : Config) (ec : EpochContext)
    (validators : List Address) (now : Int)
    (hE : 0 < cfg.epochInterval) (hB : 0 < cfg.blockInterval) (hnow : 0 ≤ now)
    (hv : ec.DposContext.GetValidators = .ok validators) (hne : validators ≠ []) :
    (0 ≤ ((now.tmod cfg.epochInterval).tdiv cfg.blockInterval).tmod (validators.length : Int) ∧
      ((now.tmod cfg.epochInterval).tdiv cfg.blockInterval).tmod (validators.length : Int)
        < (validators.length : Int)) ∧
    (ec.lookupValidator cfg now = .error .ErrInvalidMintBlockTime ∨
      ∃ v ∈ validators, ec.lookupValidator cfg now = .ok v) := by
  have hlen : 0 < validators.length := List.length_pos.mpr hne
  have ho : 0 ≤ now % cfg.epochInterval := Int.emod_nonneg _ (by omega)
  have hq : 0 ≤ now % cfg.epochInterval / cfg.blockInterval := Int.ediv_nonneg ho (by omega)
  have hi0 : 0 ≤ now % cfg.epochInterval / cfg.blockInterval % (validators.length : Int) :=
    Int.emod_nonneg _ (by omega)
  have hi1 : now % cfg.epochInterval / cfg.blockInterval % (validators.length : Int)
      < (validators.length : Int) := Int.emod_lt_of_pos _ (by omega)
  have hidx : ((now.tmod cfg.epochInterval).tdiv cfg.blockInterval).tmod (validators.length : Int)
      = now % cfg.epochInterval / cfg.blockInterval % (validators.length : Int) := by
    rw [Int.tmod_eq_emod hnow (by omega), Int.tdiv_eq_ediv ho (by omega),
      Int.tmod_eq_emod hq (by omega)]
  refine ⟨by rw [hidx]; exact ⟨hi0, hi1⟩, ?_⟩
  rw [lookupValidator_nonneg cfg ec validators now hE hB hnow hv]
  by_cases ha : now % cfg.epochInterval % cfg.blockInterval ≠ 0
  · left
    rw [if_pos ha]
  · right
    have hlt : (now % cfg.epochInterval / cfg.blockInterval
        % (validators.length : Int)).toNat < validators.length := by omega
    rw [if_neg ha, if_neg (by omega)]
    refine ⟨validators[(now % cfg.epochInterval / cfg.blockInterval
        % (validators.length : Int)).toNat], List.getElem_mem _, ?_⟩
    unfold indexAddress
    rw [if_neg (by omega), List.getElem?_eq_getElem hlt]

/-- C19 amended, at `now = 40` on the slate of three: the index is 1 and the call
returns a member of the slate. -/
theorem lookupValidator_index_in_range_witness :
    slotEc.lookupValidator scenarioCfg 40 = .ok (addrOfByte 2) ∧
    (slotEc.lookupValidator scenarioCfg 40 = .error .ErrInvalidMintBlockTime ∨
      ∃ v ∈ [addrOfByte 1, addrOfByte 2, addrOfByte 3],
        slotEc.lookupValidator scenarioCfg 40 = .ok v) :=
  ⟨rfl,
    (lookupValidator_index_in_range scenarioCfg slotEc [addrOfByte 1, addrOfByte 2, addrOfByte 3]
      40 (by decide) (by decide) (by decide) rfl (by simp)).2⟩

/-! ## tryElect: the shuffle seed -/

theorem toInt64_range (u : Nat) : -2 ^ 63 ≤ toInt64 u ∧ toInt64 u < 2 ^ 63 := by
  unfold toInt64
  split_ifs with h <;> omega

theorem wrap64_of_range (x : Int) (h1 : -2 ^ 63 ≤ x) (h2 : x < 2 ^ 63) : wrap64 x = x := by
  unfold wrap64 toInt64 toUint64
  split_ifs with h <;> omega

theorem wrap64_congr (x : Int) : (wrap64 x - x) % 2 ^ 64 = 0 := by
  unfold wrap64 toInt64 toUint64
  split_ifs with h <;> omega

theorem LittleEndianUint32_lt (b : Bytes) : LittleEndianUint32 b < 2 ^ 32 := by
  unfold LittleEndianUint32
  have h0 := (b.getD 0 0).isLt
  have h1 := (b.getD 1 0).isLt
  have h2 := (b.getD 2 0).isLt
  have h3 := (b.getD 3 0).isLt
  omega

/-- C14 as stated fails. When the digest begins with the bytes `00 00 00 80`, the
little-endian 32-bit number is 2^31; the source seeds the generator with
`2^31 + i`, whereas a sign extension would give `-2^31 + i`. -/
theorem shuffle_seed_counterexample :
    LittleEndianUint32 (stdLib.Keccak512 highBitParent.Hash) = 2147483648 ∧
    shuffleSeed stdLib highBitParent 1 = 2147483649 ∧
    shuffleSeedSignExtended stdLib highBitParent 1 = -2147483647 ∧
    shuffleSeed stdLib highBitParent 1 ≠ shuffleSeedSignExtended stdLib highBitParent 1 := by
  refine ⟨?_, ?_, ?_, ?_⟩ <;> decide

/-- C14, amended. In the election round for epoch index `i` the seed is the first four
bytes of Keccak-512(parent.hash), read little-endian as an unsigned 32-bit number `u`
and widened to 64 bits with its value kept (zero-extended), plus `i`, wrapping on 64
bits: it is congruent to `u + i` modulo 2^64, lies in the `int64` range, and equals
`u + i` when that is in range. It agrees with the sign-extended reading exactly when
`u < 2^31`. -/
theorem shuffle_seed_zero_extended (lib : Lib) (parent : types.Header) (i : Int) :
    shuffleSeed lib parent i
      = wrap64 ((LittleEndianUint32 (lib.Keccak512 parent.Hash) : Int) + i) ∧
    LittleEndianUint32 (lib.Keccak512 parent.Hash) < 2 ^ 32 ∧
    (∀ (b0 b1 b2 b3 : Byte) (rest : Bytes), lib.Keccak512 parent.Hash = b0 :: b1 :: b2 :: b3 :: rest →
      LittleEndianUint32 (lib.Keccak512 parent.Hash)
        = b0.val + 256 * b1.val + 65536 * b2.val + 16777216 * b3.val) ∧
    (shuffleSeed lib parent i - ((LittleEndianUint32 (lib.Keccak512 parent.Hash) : Int) + i))
        % 2 ^ 64 = 0 ∧
    (-2 ^ 63 ≤ shuffleSeed lib parent i ∧ shuffleSeed lib parent i < 2 ^ 63) ∧
    (-2 ^ 63 ≤ (LittleEndianUint32 (lib.Keccak512 parent.Hash) : Int) + i →
      (LittleEndianUint32 (lib.Keccak512 parent.Hash) : Int) + i < 2 ^ 63 →
      shuffleSeed lib parent i = (LittleEndianUint32 (lib.Keccak512 parent.Hash) : Int) + i) ∧
    (LittleEndianUint32 (lib.Keccak512 parent.Hash) < 2 ^ 31 →
      shuffleSeed lib parent i = shuffleSeedSignExtended lib parent i) := by
  refine ⟨rfl, LittleEndianUint32_lt _, fun b0 b1 b2 b3 rest h => ?_, wrap64_congr _,
    toInt64_range _, fun h1 h2 => wrap64_of_range _ h1 h2, fun h => ?_⟩
  · rw [h]
    simp only [LittleEndianUint32, List.getD_cons_zero, List.getD_cons_succ]
    omega
  · unfold shuffleSeed shuffleSeedSignExtended toInt32
    have h32 : LittleEndianUint32 (lib.Keccak512 parent.Hash) % 2 ^ 32
        = LittleEndianUint32 (lib.Keccak512 parent.Hash) :=
      Nat.mod_eq_of_lt (LittleEndianUint32_lt _)
    rw [h32, if_pos h]

/-! ## diffTries -/

/-- C18 fails on the code. `diffTries` returns `nil` for two tries that hold different
values under the same key, because its value test compares `i2.Value` with itself, and
for a first trie that holds exactly one entry more than the second, because the loop
condition has already advanced the first iterator past that entry when the `switch`
asks it for more. Two further entries in the first trie, or one in the second, are
reported. -/
theorem diffTries_misses_differences :
    diffTries [([1], [10])] [([1], [20])] = none ∧
    diffTries [([1], [10])] [] = none ∧
    diffTries [([1], [10]), ([2], [20])] [([1], [10])] = none ∧
    diffTries [([1], [10]), ([2], [20])] [] = some .fullHasMore ∧
    diffTries [] [([1], [10])] = some .lightHasMore ∧
    diffTries [([1], [10])] [([2], [10])] = some .differentKeys := by
  refine ⟨?_, ?_, ?_, ?_, ?_, ?_⟩ <;> decide

/-! ## tryElect: errors of a round -/

theorem tryElect_eq_electLoop (cfg : Config) (lib : Lib) (ec : EpochContext)
    (genesis parent : types.Header) :
    ec.tryElect cfg lib genesis parent =
      electLoop cfg lib parent (prevEpochOf cfg ec genesis parent)
        (prevEpochIsGenesisOf cfg genesis parent) (roundsOf cfg ec genesis parent)
        (prevEpochOf cfg ec genesis parent) (mintCntIterOf cfg ec genesis parent) ec :=
  rfl

/-- A round that returns an error ends the loop with that error. -/
theorem electLoop_round_error (cfg : Config) (lib : Lib) (parent : types.Header)
    (prevEpoch : Int) (prevEpochIsGenesis : Bool) (n : Nat) (i : Int)
    (iter : List (Bytes × Nat)) (ec : EpochContext) (e : Err)
    (h : (electRound cfg lib parent prevEpoch prevEpochIsGenesis i iter ec).err = some e) :
    electLoop cfg lib parent prevEpoch prevEpochIsGenesis (n + 1) i iter ec
      = ((electRound cfg lib parent prevEpoch prevEpochIsGenesis i iter ec).ec, some e) := by
  unfold electLoop
  rcases hr : electRound cfg lib parent prevEpoch prevEpochIsGenesis i iter ec with
    ⟨ec1, iter1, err⟩
  rw [hr] at h
  simp only at h
  subst h
  rfl

/-- A round whose kick-out returns no error, or does not run, continues with the tally
on the state the kick-out left. -/
theorem electRound_of_reach (cfg : Config) (lib : Lib) (parent : types.Header)
    (prevEpoch : Int) (prevEpochIsGenesis : Bool) (i : Int) (iter : List (Bytes × Nat))
    (ec : EpochContext)
    (hreach : (kickoutGate prevEpochIsGenesis iter).1 = true →
      (ec.kickoutValidator cfg lib prevEpoch).2 = none) :
    electFromVotes cfg lib parent i (tallyState cfg lib prevEpoch prevEpochIsGenesis iter ec)
      = ((electRound cfg lib parent prevEpoch prevEpochIsGenesis i iter ec).ec,
          (electRound cfg lib parent prevEpoch prevEpochIsGenesis i iter ec).err) := by
  unfold electRound tallyState
  by_cases hg : (kickoutGate prevEpochIsGenesis iter).1 = true
  · have hk := hreach hg
    simp only [hg, if_true]
    rcases hkv : ec.kickoutValidator cfg lib prevEpoch with ⟨ec1, err⟩
    rw [hkv] at hk
    simp only at hk
    subst hk
    rfl
  · simp only [hg]
    rfl

theorem shuffle_error (rand : RandImpl) : ∀ (i : Nat) (r : rand.Rand)
    (candidates : sortableAddresses) (e : Err),
    shuffle rand i r candidates = .error e → e = .panicInvalidArgumentToInt31n
  | 0, r, candidates, e, h => by simp [shuffle] at h
  | i + 1, r, candidates, e, h => by
    unfold shuffle at h
    simp only [] at h
    split_ifs at h
    · simp only [Except.error.injEq] at h
      exact h.symm
    · exact shuffle_error rand i _ _ e h

/-- The errors the tally, rank and shuffle part of a round returns, and the state it
leaves with each: the state is unchanged whenever an error is returned. -/
theorem electFromVotes_cases (cfg : Config) (lib : Lib) (parent : types.Header) (i : Int)
    (ec : EpochContext) :
    (ec.countVotes.2 ≠ none →
      electFromVotes cfg lib parent i ec = (ec, ec.countVotes.2)) ∧
    (ec.countVotes.2 = none → (ec.countVotes.1.length : Int) < cfg.safeSize →
      electFromVotes cfg lib parent i ec = (ec, some .tooFewCandidates)) ∧
    (ec.countVotes.2 = none → cfg.safeSize ≤ (ec.countVotes.1.length : Int) →
      (electFromVotes cfg lib parent i ec).2 = none ∨
        electFromVotes cfg lib parent i ec = (ec, some .panicInvalidArgumentToInt31n)) := by
  have hlen : ∀ votes : VoteMap,
      ((lib.rangeVotes i votes).map fun e => (⟨e.1, e.2⟩ : sortableAddress)).length
        = votes.length := fun votes => by
    rw [List.length_map, (lib.rangeVotes_perm i votes).length_eq]
  unfold electFromVotes
  rcases ec.countVotes with ⟨votes, err⟩
  cases err with
  | some e => simp
  | none =>
    refine ⟨fun h => absurd rfl h, fun _ hlt => ?_, fun _ hge => ?_⟩
    · simp only [hlen votes]
      rw [if_pos hlt]
    · have hge1 : ¬ (votes.length : Int) < cfg.safeSize := not_lt.mpr hge
      simp only [hlen votes]
      rw [if_neg hge1]
      split
      · next e hsh =>
        right
        rw [shuffle_error _ _ _ _ e hsh]
      · left
        rfl

/-- C12 as stated fails. With an empty CandidateTrie the tally `countVotes` returns is
empty, hence smaller than `safeSize = 2`, yet the round and `tryElect` fail with the
NoCandidates error, not with TooFewCandidates. -/
theorem too_few_candidates_counterexample :
    emptyEc.countVotes = ([], some .noCandidates) ∧
    (emptyEc.countVotes.1.length : Int) < smallCfg.safeSize ∧
    (electRound smallCfg stdLib demoParent 1 false 1 [] emptyEc).err = some .noCandidates ∧
    (emptyEc.tryElect smallCfg stdLib demoGenesis demoParent).2 = some .noCandidates ∧
    (emptyEc.tryElect smallCfg stdLib demoGenesis demoParent).2 ≠ some .tooFewCandidates := by
  refine ⟨?_, ?_, ?_, ?_, ?_⟩ <;> decide

/-- C12, amended. In every round of `tryElect` that reaches the tally (its kick-out did
not run or returned no error): when `countVotes` returns no error and fewer than
`safeSize` candidates, the round fails with TooFewCandidates, the loop of `tryElect`
returns that error, and DposContext is as the kick-out left it, with no new EpochTrie
and no new slate; when the tally has at least `safeSize` candidates the round does not
fail with that error; when CandidateTrie is empty it fails with NoCandidates. -/
theorem election_too_few_candidates (cfg : Config) (lib : Lib) (parent : types.Header)
    (prevEpoch : Int) (prevEpochIsGenesis : Bool) (i : Int) (iter : List (Bytes × Nat))
    (ec : EpochContext)
    (hreach : (kickoutGate prevEpochIsGenesis iter).1 = true →
      (ec.kickoutValidator cfg lib prevEpoch).2 = none) :
    ((tallyState cfg lib prevEpoch prevEpochIsGenesis iter ec).countVotes.2 = none →
      ((tallyState cfg lib prevEpoch prevEpochIsGenesis iter ec).countVotes.1.length : Int)
        < cfg.safeSize →
      (electRound cfg lib parent prevEpoch prevEpochIsGenesis i iter ec).err
          = some .tooFewCandidates ∧
        (electRound cfg lib parent prevEpoch prevEpochIsGenesis i iter ec).ec.DposContext
          = (tallyState cfg lib prevEpoch prevEpochIsGenesis iter ec).DposContext ∧
        ∀ n, (electLoop cfg lib parent prevEpoch prevEpochIsGenesis (n + 1) i iter ec).2
          = some .tooFewCandidates) ∧
    (cfg.safeSize
        ≤ ((tallyState cfg lib prevEpoch prevEpochIsGenesis iter ec).countVotes.1.length : Int) →
      (electRound cfg lib parent prevEpoch prevEpochIsGenesis i iter ec).err
        ≠ some .tooFewCandidates) ∧
    ((tallyState cfg lib prevEpoch prevEpochIsGenesis iter ec).DposContext.candidateTrie = [] →
      (electRound cfg lib parent prevEpoch prevEpochIsGenesis i iter ec).err
        = some .noCandidates) := by
  have hr := electRound_of_reach cfg lib parent prevEpoch prevEpochIsGenesis i iter ec hreach
  have hc := electFromVotes_cases cfg lib parent i
    (tallyState cfg lib prevEpoch prevEpochIsGenesis iter ec)
  have hnc := countVotes_error_cases (tallyState cfg lib prevEpoch prevEpochIsGenesis iter ec)
  refine ⟨fun h0 hlt => ?_, fun hge => ?_, fun hempty => ?_⟩
  · have h1 := hc.2.1 h0 hlt
    rw [hr] at h1
    simp only [Prod.mk.injEq] at h1
    have herr := h1.2
    refine ⟨herr, by rw [h1.1], fun n => ?_⟩
    rw [electLoop_round_error cfg lib parent prevEpoch prevEpochIsGenesis n i iter ec _ herr]
  · intro herr
    cases h0 : (tallyState cfg lib prevEpoch prevEpochIsGenesis iter ec).countVotes.2 with
    | some e =>
      have h1 := hc.1 (by rw [h0]; simp)
      rw [hr] at h1
      simp only [Prod.mk.injEq] at h1
      have h2 := h1.2
      rw [herr, h0] at h2
      have h3 : (tallyState cfg lib prevEpoch prevEpochIsGenesis iter ec).DposContext.candidateTrie
          ≠ [] := by
        intro hempty
        have := hnc.2.1 hempty
        rw [this] at hge
        have hpos : (tallyState cfg lib prevEpoch prevEpochIsGenesis iter ec).countVotes.2
            = some .noCandidates := hnc.1.2 hempty
        rw [h0] at hpos
        rw [← h2] at hpos
        exact Err.noConfusion (Option.some.inj hpos)
      have := hnc.2.2 h3
      rw [h0] at this
      exact Option.noConfusion this
    | none =>
      rcases hc.2.2 h0 hge with h1 | h1
      · rw [hr] at h1
        simp only at h1
        rw [herr] at h1
        exact Option.noConfusion h1
      · rw [hr] at h1
        simp only [Prod.mk.injEq] at h1
        have h2 := h1.2
        rw [herr] at h2
        exact Err.noConfusion (Option.some.inj h2)
  · have h0 : (tallyState cfg lib prevEpoch prevEpochIsGenesis iter ec).countVotes.2
        = some .noCandidates := hnc.1.2 hempty
    have h1 := hc.1 (by rw [h0]; simp)
    rw [hr] at h1
    simp only [Prod.mk.injEq] at h1
    rw [h1.2, h0]

/-- C12 amended, on the worked example with a floor of 5: three candidates are tallied
and the round fails with TooFewCandidates. -/
theorem election_too_few_candidates_witness :
    (tallyState strictCfg stdLib 1 false demoIter demoEc).countVotes.1.length = 3 ∧
    (demoEc.tryElect strictCfg stdLib demoGenesis demoParent).2 = some .tooFewCandidates ∧
    (electRound strictCfg stdLib demoParent 1 false 1 demoIter demoEc).err
      = some .tooFewCandidates ∧
    (electRound strictCfg stdLib demoParent 1 false 1 demoIter demoEc).ec.DposContext
      = (tallyState strictCfg stdLib 1 false demoIter demoEc).DposContext :=
  have h := (election_too_few_candidates strictCfg stdLib demoParent 1 false 1 demoIter demoEc
    (by decide)).1 (by decide) (by decide)
  ⟨by decide, by decide, h.1, h.2.1⟩

/-! ## tryElect: what an error leaves behind -/

/-- A removal loop that made no `KickoutCandidate` call leaves the context as it was. -/
theorem kickoutLoop_no_call (cfg : Config) (lib : Lib) (l : sortableAddresses) (c : Int)
    (dc : types.DposContext) (kicked : List Address)
    (h : (kickoutLoop cfg lib l c dc kicked).kicked = kicked) :
    (kickoutLoop cfg lib l c dc kicked).dc = dc := by
  cases l with
  | nil => simp [kickoutLoop]
  | cons v rest =>
    unfold kickoutLoop at h ⊢
    by_cases hc : c ≤ cfg.safeSize
    · simp [hc]
    · rw [if_neg hc] at h ⊢
      exfalso
      rcases hres : lib.KickoutCandidate dc v.address with ⟨dc1, err⟩
      rw [hres] at h
      cases err with
      | some e =>
        simp only at h
        have := congrArg List.length h
        simp at this
      | none =>
        simp only at h
        obtain ⟨k, hk⟩ := kickoutLoop_kicked cfg lib rest (c - 1) dc1 (kicked ++ [v.address])
        rw [hk] at h
        have := congrArg List.length h
        simp only [List.length_append, List.length_cons, List.length_nil, List.length_map] at this
        omega

theorem kickoutValidatorLog_no_call (cfg : Config) (lib : Lib) (ec : EpochContext)
    (epoch : Int) (h : (kickoutValidatorLog cfg lib ec epoch).kicked = []) :
    (kickoutValidatorLog cfg lib ec epoch).dc = ec.DposContext := by
  unfold kickoutValidatorLog at h ⊢
  revert h
  cases ec.DposContext.GetValidators with
  | error e => exact fun _ => rfl
  | ok validators =>
    intro h
    simp only [] at h ⊢
    split_ifs at h ⊢
    · rfl
    · rfl
    · exact kickoutLoop_no_call cfg lib _ _ _ _ h

/-- The tally, rank and shuffle part of a round leaves the state unchanged when it
returns an error. -/
theorem electFromVotes_error_state (cfg : Config) (lib : Lib) (parent : types.Header)
    (i : Int) (ec : EpochContext) (h : (electFromVotes cfg lib parent i ec).2 ≠ none) :
    (electFromVotes cfg lib parent i ec).1 = ec := by
  have hc := electFromVotes_cases cfg lib parent i ec
  cases h0 : ec.countVotes.2 with
  | some e => rw [hc.1 (by rw [h0]; simp)]
  | none =>
    by_cases hlt : (ec.countVotes.1.length : Int) < cfg.safeSize
    · rw [hc.2.1 h0 hlt]
    · rcases hc.2.2 h0 (not_lt.mp hlt) with h1 | h1
      · exact absurd h1 h
      · rw [h1]

/-- A round that returns an error without any `KickoutCandidate` call leaves
DposContext as it was. -/
theorem electRound_error_context (cfg : Config) (lib : Lib) (parent : types.Header)
    (prevEpoch : Int) (prevEpochIsGenesis : Bool) (i : Int) (iter : List (Bytes × Nat))
    (ec : EpochContext)
    (herr : (electRound cfg lib parent prevEpoch prevEpochIsGenesis i iter ec).err ≠ none)
    (hnokick : (kickoutGate prevEpochIsGenesis iter).1 = true →
      (kickoutValidatorLog cfg lib ec prevEpoch).kicked = []) :
    (electRound cfg lib parent prevEpoch prevEpochIsGenesis i iter ec).ec.DposContext
      = ec.DposContext := by
  unfold electRound at herr ⊢
  by_cases hg : (kickoutGate prevEpochIsGenesis iter).1 = true
  · have hdc := kickoutValidatorLog_no_call cfg lib ec prevEpoch (hnokick hg)
    simp only [hg, if_true] at herr ⊢
    unfold EpochContext.kickoutValidator at herr ⊢
    cases hke : (kickoutValidatorLog cfg lib ec prevEpoch).err with
    | some e =>
      simp only [hke]
      exact hdc
    | none =>
      simp only [hke] at herr ⊢
      rw [electFromVotes_error_state cfg lib parent i _ herr]
      exact hdc
  · simp only [hg] at herr ⊢
    simp only [Bool.false_eq_true, if_false] at herr ⊢
    rw [electFromVotes_error_state cfg lib parent i ec herr]

/-- C11 as stated fails. With four candidates and a store that fails on `0xa2…`, the
kick-out removes `0xa1…`, then fails, and `tryElect` returns the error with `0xa1…`
gone from CandidateTrie. With five candidates, two rounds and a store that fails on
`0xa5…`, the first round removes two candidates and installs a slate, the second round
fails, and `tryElect` returns the error with both changes in place. -/
theorem tryElect_atomicity_counterexample :
    (demoEc4.tryElect smallCfg (libFailingOn (addrOfByte 0xa2)) demoGenesis demoParent).2
        = some .storeError ∧
    candidatesOf demoEc4.DposContext
        = [addrOfByte 0xa1, addrOfByte 0xa2, addrOfByte 0xa3, addrOfByte 0xa4] ∧
    candidatesOf
        (demoEc4.tryElect smallCfg (libFailingOn (addrOfByte 0xa2)) demoGenesis demoParent).1.DposContext
        = [addrOfByte 0xa2, addrOfByte 0xa3, addrOfByte 0xa4] ∧
    (demoEc4.tryElect smallCfg (libFailingOn (addrOfByte 0xa2)) demoGenesis demoParent).1.DposContext
        ≠ demoEc4.DposContext ∧
    roundsOf smallCfg gapEc5 demoGenesis demoParent = 2 ∧
    (gapEc5.tryElect smallCfg (libFailingOn (addrOfByte 0xa5)) demoGenesis demoParent).2
        = some .storeError ∧
    gapEc5.DposContext.epochTrie = some [addrOfByte 0xa1, addrOfByte 0xa2, addrOfByte 0xa3] ∧
    (gapEc5.tryElect smallCfg (libFailingOn (addrOfByte 0xa5)) demoGenesis demoParent).1.DposContext.epochTrie
        = some [addrOfByte 0xa3, addrOfByte 0xa5, addrOfByte 0xa4] ∧
    candidatesOf
        (gapEc5.tryElect smallCfg (libFailingOn (addrOfByte 0xa5)) demoGenesis demoParent).1.DposContext
        = [addrOfByte 0xa3, addrOfByte 0xa4, addrOfByte 0xa5] := by
  refine ⟨?_, ?_, ?_, ?_, ?_, ?_, ?_, ?_, ?_⟩ <;> decide

/-- C11, amended. When the first round of `tryElect` returns an error and made no
`KickoutCandidate` call (the kick-out did not run, or stopped before its first removal),
`tryElect` returns that error and leaves DposContext exactly as it was before the call.
`tryElect` has no rollback: what `KickoutCandidate` removed before the error, and what
earlier rounds of a multi-epoch loop removed and installed, stays. -/
theorem tryElect_error_without_kickout (cfg : Config) (lib : Lib) (ec : EpochContext)
    (genesis parent : types.Header)
    (hrounds : 0 < roundsOf cfg ec genesis parent)
    (herr : (electRound cfg lib parent (prevEpochOf cfg ec genesis parent)
      (prevEpochIsGenesisOf cfg genesis parent) (prevEpochOf cfg ec genesis parent)
      (mintCntIterOf cfg ec genesis parent) ec).err ≠ none)
    (hnokick : (kickoutGate (prevEpochIsGenesisOf cfg genesis parent)
        (mintCntIterOf cfg ec genesis parent)).1 = true →
      (kickoutValidatorLog cfg lib ec (prevEpochOf cfg ec genesis parent)).kicked = []) :
    (ec.tryElect cfg lib genesis parent).2
      = (electRound cfg lib parent (prevEpochOf cfg ec genesis parent)
          (prevEpochIsGenesisOf cfg genesis parent) (prevEpochOf cfg ec genesis parent)
          (mintCntIterOf cfg ec genesis parent) ec).err ∧
    (ec.tryElect cfg lib genesis parent).1.DposContext = ec.DposContext := by
  obtain ⟨n, hn⟩ : ∃ n, roundsOf cfg ec genesis parent = n + 1 :=
    ⟨roundsOf cfg ec genesis parent - 1, by omega⟩
  obtain ⟨e, he⟩ := Option.ne_none_iff_exists'.mp herr
  rw [tryElect_eq_electLoop, hn, electLoop_round_error _ _ _ _ _ _ _ _ _ e he]
  exact ⟨he.symm, electRound_error_context _ _ _ _ _ _ _ _ herr hnokick⟩

/-- C11 amended, on the worked example with a floor of 5: the kick-out runs but removes
nothing, the round fails with TooFewCandidates and DposContext is unchanged. -/
theorem tryElect_error_without_kickout_witness :
    (demoEc.tryElect strictCfg stdLib demoGenesis demoParent).2 = some .tooFewCandidates ∧
    (demoEc.tryElect strictCfg stdLib demoGenesis demoParent).1.DposContext
      = demoEc.DposContext :=
  ⟨by decide,
    (tryElect_error_without_kickout strictCfg stdLib demoEc demoGenesis demoParent (by decide)
      (by decide) (by decide)).2⟩

/-! ## tryElect: the gate of the kick-out -/

theorem kickoutGate_fst (prevEpochIsGenesis : Bool) (iter : List (Bytes × Nat)) :
    (kickoutGate prevEpochIsGenesis iter).1 = true ↔ prevEpochIsGenesis = false ∧ iter ≠ [] := by
  unfold kickoutGate
  cases prevEpochIsGenesis <;> cases iter <;> simp

theorem kickoutGate_snd (prevEpochIsGenesis : Bool) (iter : List (Bytes × Nat)) :
    (kickoutGate prevEpochIsGenesis iter).2 = if prevEpochIsGenesis then iter else iter.drop 1 := by
  unfold kickoutGate
  cases prevEpochIsGenesis <;> cases iter <;> simp

theorem electRound_iter (cfg : Config) (lib : Lib) (parent : types.Header) (prevEpoch : Int)
    (prevEpochIsGenesis : Bool) (i : Int) (iter : List (Bytes × Nat)) (ec : EpochContext) :
    (electRound cfg lib parent prevEpoch prevEpochIsGenesis i iter ec).iter
      = (kickoutGate prevEpochIsGenesis iter).2 := by
  unfold electRound
  by_cases hg : (kickoutGate prevEpochIsGenesis iter).1 = true
  · simp only [hg, if_true]
    rcases ec.kickoutValidator cfg lib prevEpoch with ⟨ec1, err⟩
    cases err <;> rfl
  · simp only [hg]
    rfl

/-- Round `k` starts with epoch index `i + k` and with the iterator advanced `k` times
when the parent is not in the genesis epoch, not advanced otherwise. -/
theorem roundStart_spec (cfg : Config) (lib : Lib) (parent : types.Header) (prevEpoch : Int)
    (prevEpochIsGenesis : Bool) :
    ∀ (k : Nat) (i : Int) (iter : List (Bytes × Nat)) (ec : EpochContext)
      (ik : Int) (iterk : List (Bytes × Nat)) (eck : EpochContext),
      roundStart cfg lib parent prevEpoch prevEpochIsGenesis k i iter ec = some (ik, iterk, eck) →
      ik = i + k ∧ iterk = (if prevEpochIsGenesis then iter else iter.drop k) ∧
        ∀ m, electLoop cfg lib parent prevEpoch prevEpochIsGenesis (k + m) i iter ec
          = electLoop cfg lib parent prevEpoch prevEpochIsGenesis m ik iterk eck
  | 0, i, iter, ec, ik, iterk, eck, h => by
    simp only [roundStart, Option.some.injEq, Prod.mk.injEq] at h
    obtain ⟨h1, h2, h3⟩ := h
    subst h1 h2 h3
    refine ⟨by simp, by cases prevEpochIsGenesis <;> simp, fun m => by rw [Nat.zero_add]⟩
  | k + 1, i, iter, ec, ik, iterk, eck, h => by
    unfold roundStart at h
    have hit := electRound_iter cfg lib parent prevEpoch prevEpochIsGenesis i iter ec
    rcases hr : electRound cfg lib parent prevEpoch prevEpochIsGenesis i iter ec with
      ⟨ec1, iter1, err⟩
    rw [hr] at h hit
    simp only at hit
    cases err with
    | some e => simp at h
    | none =>
      simp only at h
      obtain ⟨h1, h2, h3⟩ := roundStart_spec cfg lib parent prevEpoch prevEpochIsGenesis k
        (i + 1) iter1 ec1 ik iterk eck h
      refine ⟨by rw [h1]; push_cast; ring, ?_, fun m => ?_⟩
      · rw [h2, hit, kickoutGate_snd]
        cases prevEpochIsGenesis
        · simp only [Bool.false_eq_true, if_false, List.drop_drop]
          rw [Nat.add_comm]
        · simp
      · rw [show k + 1 + m = (k + m) + 1 by omega, electLoop, hr]
        exact h3 m

/-- C16 as stated fails. In the worked example two epochs after the parent, the parent
is not in the genesis epoch, the loop runs two rounds and MintCntTrie has one entry
under `bigendian64(prevEpoch)`: the first round runs the kick-out and succeeds, the
second round does not run it, the iterator being exhausted. -/
theorem kickout_gate_counterexample :
    prevEpochIsGenesisOf smallCfg demoGenesis demoParent = false ∧
    prevEpochOf smallCfg gapEc demoGenesis demoParent = 1 ∧
    roundsOf smallCfg gapEc demoGenesis demoParent = 2 ∧
    (mintCntIterOf smallCfg gapEc demoGenesis demoParent).length = 1 ∧
    (kickoutGate false (mintCntIterOf smallCfg gapEc demoGenesis demoParent)).1 = true ∧
    (electRound smallCfg stdLib demoParent 1 false 1
      (mintCntIterOf smallCfg gapEc demoGenesis demoParent) gapEc).err = none ∧
    (roundStart smallCfg stdLib demoParent 1 false 1 1
        (mintCntIterOf smallCfg gapEc demoGenesis demoParent) gapEc).map
      (fun s => (s.1, (kickoutGate false s.2.1).1)) = some (2, false) := by
  refine ⟨?_, ?_, ?_, ?_, ?_, ?_, ?_⟩ <;> decide

/-- C16, amended. Round `k` of the election loop of `tryElect` (counted from 0, reached
when the rounds before it returned no error) has epoch index `prevEpoch + k` and invokes
`kickoutValidator(prevEpoch)` exactly when the parent is not in the genesis epoch and
the iterator opened before the loop holds more than `k` entries, because each round of
a non-genesis election advances it by one. In the first round this is "at least one
entry"; in a later round the gate may be closed although it was open before. When the
gate is closed the round goes straight to the tally; when it is open the error of
`kickoutValidator` is the error of the round. -/
theorem kickout_gate_by_round (cfg : Config) (lib : Lib) (parent : types.Header)
    (prevEpoch : Int) (prevEpochIsGenesis : Bool) (k : Nat) (i : Int)
    (iter : List (Bytes × Nat)) (ec : EpochContext) (ik : Int) (iterk : List (Bytes × Nat))
    (eck : EpochContext)
    (h : roundStart cfg lib parent prevEpoch prevEpochIsGenesis k i iter ec
      = some (ik, iterk, eck)) :
    ik = i + k ∧
    ((kickoutGate prevEpochIsGenesis iterk).1 = true ↔
      prevEpochIsGenesis = false ∧ k < iter.length) ∧
    ((kickoutGate prevEpochIsGenesis iterk).1 = false →
      (electRound cfg lib parent prevEpoch prevEpochIsGenesis ik iterk eck).ec
          = (electFromVotes cfg lib parent ik eck).1 ∧
        (electRound cfg lib parent prevEpoch prevEpochIsGenesis ik iterk eck).err
          = (electFromVotes cfg lib parent ik eck).2) ∧
    ((kickoutGate prevEpochIsGenesis iterk).1 = true →
      ∀ e, (eck.kickoutValidator cfg lib prevEpoch).2 = some e →
        (electRound cfg lib parent prevEpoch prevEpochIsGenesis ik iterk eck).err = some e) ∧
    (∀ m, electLoop cfg lib parent prevEpoch prevEpochIsGenesis (k + m) i iter ec
      = electLoop cfg lib parent prevEpoch prevEpochIsGenesis m ik iterk eck) := by
  obtain ⟨h1, h2, h3⟩ := roundStart_spec cfg lib parent prevEpoch prevEpochIsGenesis k i iter ec
    ik iterk eck h
  refine ⟨h1, ?_, fun hg => ?_, fun hg e he => ?_, h3⟩
  · rw [kickoutGate_fst, h2]
    cases prevEpochIsGenesis
    · simp only [Bool.false_eq_true, if_false, true_and, ne_eq, List.drop_eq_nil_iff, not_le]
    · simp
  · unfold electRound
    simp [hg]
  · unfold electRound
    simp only [hg, if_true]
    rcases hk : eck.kickoutValidator cfg lib prevEpoch with ⟨ec1, err⟩
    rw [hk] at he
    simp only at he
    subst he
    rfl

/-- C16 amended, on the worked example two epochs after the parent: round 1 starts with
epoch index 2 and an exhausted iterator, so its gate is closed although MintCntTrie has
an entry under `bigendian64(prevEpoch)`. -/
theorem kickout_gate_by_round_witness :
    (mintCntIterOf smallCfg gapEc demoGenesis demoParent).length = 1 ∧
    (2 : Int) = 1 + (1 : Nat) ∧
    ((kickoutGate false []).1 = true ↔
      false = false ∧ 1 < (mintCntIterOf smallCfg gapEc demoGenesis demoParent).length) :=
  have h := kickout_gate_by_round smallCfg stdLib demoParent 1 false 1 1
    (mintCntIterOf smallCfg gapEc demoGenesis demoParent) gapEc 2 []
    (electRound smallCfg stdLib demoParent 1 false 1
      (mintCntIterOf smallCfg gapEc demoGenesis demoParent) gapEc).ec rfl
  ⟨by decide, h.1, h.2.1⟩

/-! ## kickoutValidator: bounded pre-count -/

/-- The value of the counting loop: it stops at the first count that reaches `limit`,
or at the end of the entries. -/
theorem countUpTo_eq (limit : Int) : ∀ (l : List (Bytes × Bytes)) (c : Int),
    countUpTo limit l c = if l = [] then c else min (c + l.length) (max limit (c + 1))
  | [], c => by simp [countUpTo]
  | _ :: rest, c => by
    unfold countUpTo
    rw [countUpTo_eq limit rest (c + 1)]
    simp only [List.cons_ne_nil, if_false, List.length_cons, Nat.cast_add, Nat.cast_one]
    by_cases hr : rest = []
    · subst hr
      simp only [List.length_nil, Nat.cast_zero, if_true]
      split_ifs <;> omega
    · have hpos : 0 < rest.length := List.length_pos.mpr hr
      simp only [hr, if_false]
      split_ifs <;> omega

/-- The removal loop depends on the count only through the tests
`candidateCount - j ≤ safeSize` at the entries it runs over. -/
theorem kickoutLoop_count_congr (cfg : Config) (lib : Lib) :
    ∀ (l : sortableAddresses) (c c1 : Int) (dc : types.DposContext) (kicked : List Address),
      (∀ j : Nat, j < l.length → (c - j ≤ cfg.safeSize ↔ c1 - j ≤ cfg.safeSize)) →
      kickoutLoop cfg lib l c dc kicked = kickoutLoop cfg lib l c1 dc kicked
  | [], c, c1, dc, kicked, _ => by simp [kickoutLoop]
  | v :: rest, c, c1, dc, kicked, h => by
    have h0 := h 0 (by simp)
    simp only [Nat.cast_zero, sub_zero] at h0
    have hrest : ∀ j : Nat, j < rest.length →
        (c - 1 - j ≤ cfg.safeSize ↔ c1 - 1 - j ≤ cfg.safeSize) := by
      intro j hj
      have := h (j + 1) (by simp only [List.length_cons]; omega)
      simp only [Nat.cast_add, Nat.cast_one] at this
      constructor
      · intro hh
        have := this.1 (by omega)
        omega
      · intro hh
        have := this.2 (by omega)
        omega
    unfold kickoutLoop
    by_cases hc : c ≤ cfg.safeSize
    · rw [if_pos hc, if_pos (h0.1 hc)]
    · rw [if_neg hc, if_neg (fun hc1 => hc (h0.2 hc1))]
      rcases lib.KickoutCandidate dc v.address with ⟨dc1, err⟩
      cases err with
      | some e => rfl
      | none => exact kickoutLoop_count_congr cfg lib rest (c - 1) (c1 - 1) dc1 _ hrest

/-- With a `KickoutCandidate` that never fails, the loop calls it on the first
`min(len, max(0, candidateCount − safeSize))` entries. -/
theorem kickoutLoop_kicked_length (cfg : Config) (lib : Lib)
    (hk : ∀ dc a, (lib.KickoutCandidate dc a).2 = none) :
    ∀ (l : sortableAddresses) (c : Int) (dc : types.DposContext) (kicked : List Address),
      ((kickoutLoop cfg lib l c dc kicked).kicked.length : Int)
        = kicked.length + min (l.length : Int) (max 0 (c - cfg.safeSize))
  | [], c, dc, kicked => by
    simp only [kickoutLoop, List.length_nil, Nat.cast_zero]
    omega
  | v :: rest, c, dc, kicked => by
    unfold kickoutLoop
    by_cases hc : c ≤ cfg.safeSize
    · rw [if_pos hc]
      simp only [List.length_cons, Nat.cast_add, Nat.cast_one]
      omega
    · rw [if_neg hc]
      have hkv := hk dc v.address
      rcases hres : lib.KickoutCandidate dc v.address with ⟨dc1, err⟩
      rw [hres] at hkv
      simp only at hkv
      subst hkv
      simp only
      rw [kickoutLoop_kicked_length cfg lib hk rest (c - 1) dc1 _]
      simp only [List.length_append, List.length_cons, List.length_nil, Nat.cast_add,
        Nat.cast_one, Nat.cast_zero]
      omega

/-- C17 as stated fails. With four candidates, two marked validators and a floor of 2
the count `min(2, max(0, 4 − 2))` is 2, but when the store fails on the first removal
the loop ends there: one removal is attempted, with the bounded count and with the full
count alike. -/
theorem bounded_precount_counterexample :
    (needKickoutValidators smallCfg demoEc4 1
        [addrOfByte 0xa1, addrOfByte 0xa2, addrOfByte 0xa3]).length = 2 ∧
    demoEc4.DposContext.candidateTrie.length = 4 ∧
    min (2 : Int) (max 0 (4 - smallCfg.safeSize)) = 2 ∧
    (kickoutValidatorLog smallCfg (libFailingOn (addrOfByte 0xa1)) demoEc4 1).kicked
        = [addrOfByte 0xa1] ∧
    (kickoutValidatorLog smallCfg (libFailingOn (addrOfByte 0xa1)) demoEc4 1).err
        = some .storeError ∧
    (kickoutValidatorFullCountLog smallCfg (libFailingOn (addrOfByte 0xa1)) demoEc4 1).kicked
        = [addrOfByte 0xa1] := by
  refine ⟨?_, ?_, ?_, ?_, ?_, ?_⟩ <;> decide

/-- C17, amended. For every state and every `safeSize`, `kickoutValidator` with its
count of CandidateTrie entries bounded by `len(marked) + safeSize` leaves the same
context, makes the same `KickoutCandidate` calls in the same order and returns the same
error as it would with the full number of CandidateTrie entries as `candidateCount`.
When no `KickoutCandidate` call returns an error, exactly
`min(len(marked), max(0, |CandidateTrie| − safeSize))` removals are attempted; a call
that returns an error ends the loop there in both. -/
theorem bounded_precount_equiv (cfg : Config) (lib : Lib) (ec : EpochContext) (epoch : Int) :
    kickoutValidatorLog cfg lib ec epoch = kickoutValidatorFullCountLog cfg lib ec epoch ∧
    (∀ validators : List Address, ec.DposContext.GetValidators = .ok validators →
      (∀ dc a, (lib.KickoutCandidate dc a).2 = none) →
      ((kickoutValidatorLog cfg lib ec epoch).kicked.length : Int)
        = min ((needKickoutValidators cfg ec epoch validators).length : Int)
            (max 0 ((ec.DposContext.candidateTrie.length : Int) - cfg.safeSize))) := by
  have heq : kickoutValidatorLog cfg lib ec epoch
      = kickoutValidatorFullCountLog cfg lib ec epoch := by
    unfold kickoutValidatorLog kickoutValidatorFullCountLog
    cases ec.DposContext.GetValidators with
    | error e => rfl
    | ok validators =>
      simp only []
      split_ifs with h1 h2
      · rfl
      · rfl
      · apply kickoutLoop_count_congr
        intro j hj
        rw [(lib.sorter.perm _ _).length_eq] at hj
        rw [countUpTo_eq]
        simp only [Trie.NodeIterator]
        by_cases hct : ec.DposContext.candidateTrie = []
        · simp [hct]
        · have hpos : 0 < ec.DposContext.candidateTrie.length := List.length_pos.mpr hct
          simp only [hct, if_false]
          omega
  refine ⟨heq, fun validators hv hk => ?_⟩
  rw [heq]
  unfold kickoutValidatorFullCountLog
  simp only [hv]
  split_ifs with h1 h2
  · have : validators = [] := List.length_eq_zero.mp h1
    subst this
    simp only [needKickoutValidators, List.length_nil, Nat.cast_zero]
    omega
  · have : (needKickoutValidators cfg ec epoch validators).length = 0 := by omega
    rw [this]
    simp only [List.length_nil, Nat.cast_zero]
    omega
  · rw [kickoutLoop_kicked_length cfg lib hk, (lib.sorter.perm _ _).length_eq]
    simp [Trie.NodeIterator]

/-- C17 amended, on the worked example with four candidates and a store that does not
fail: both marked validators are removed, `min(2, max(0, 4 − 2)) = 2`. -/
theorem bounded_precount_equiv_witness :
    (kickoutValidatorLog smallCfg stdLib demoEc4 1).kicked
        = [addrOfByte 0xa1, addrOfByte 0xa2] ∧
    ((kickoutValidatorLog smallCfg stdLib demoEc4 1).kicked.length : Int)
      = min ((needKickoutValidators smallCfg demoEc4 1
              [addrOfByte 0xa1, addrOfByte 0xa2, addrOfByte 0xa3]).length : Int)
          (max 0 ((demoEc4.DposContext.candidateTrie.length : Int) - smallCfg.safeSize)) :=
  ⟨by decide,
    (bounded_precount_equiv smallCfg stdLib demoEc4 1).2
      [addrOfByte 0xa1, addrOfByte 0xa2, addrOfByte 0xa3] rfl (fun _ _ => rfl)⟩

end Dpos
